import Mathlib

/-!
A shallow embedding of the script-fu argument-schema and marshalling engine
(`plug-ins/script-fu/libscriptfu/script-fu-script.c`): the tagged argument
value model, the PDB procedure descriptor builder, the standard-argument
extractor, the textual command serializer, and the defaults resetter,
together with theorems checking the natural-language specification.

C strings are modelled as Lean `String`s (byte-exact `List Nat` for the
title derivation, which inspects raw UTF-8 bytes); `gint` as `Int`;
`gdouble` payloads as `ℚ` (the operations here only store, copy and print
them — no floating-point arithmetic occurs).
-/

/-! ### Decimal printing: the C library's printf "%d" on integers -/

/-- The decimal digit character for `n < 10` (the `_` arm is unreachable for
the `n % 10` arguments we pass). -/
def digitOf (n : Nat) : Char :=
  match n with
  | 0 => '0' | 1 => '1' | 2 => '2' | 3 => '3' | 4 => '4'
  | 5 => '5' | 6 => '6' | 7 => '7' | 8 => '8' | _ => '9'

/-- Numeric value of a decimal digit character. -/
def digitVal (c : Char) : Nat :=
  match c with
  | '0' => 0 | '1' => 1 | '2' => 2 | '3' => 3 | '4' => 4
  | '5' => 5 | '6' => 6 | '7' => 7 | '8' => 8 | '9' => 9
  | _ => 0

/-- Big-endian decimal digits of `n`, prepended to `acc`; structurally
recursive on a fuel bound (any `fuel > n` is enough, since `n/10 < n`). -/
def natDecAux : Nat → Nat → List Char → List Char
  | 0, _, acc => acc
  | fuel + 1, n, acc =>
      if n < 10 then digitOf n :: acc
      else natDecAux fuel (n / 10) (digitOf (n % 10) :: acc)

/-- printf `"%u"`: decimal rendering of a natural number. -/
def natToDecimal (n : Nat) : String :=
  String.mk (natDecAux (n + 1) n [])

/-- printf `"%d"`: decimal rendering of an integer. -/
def intToDecimal (i : Int) : String :=
  if i < 0 then "-" ++ natToDecimal i.natAbs else natToDecimal i.natAbs

/-! ### Locale-independent float formatting

The C code formats `gdouble` values with glib's `g_ascii_dtostr`, which is
`g_ascii_formatd (buf, len, "%.17g", d)`: ASCII-only output with `.` as the
decimal separator irrespective of the process locale, printing enough
significant digits to round-trip and trimming trailing fractional zeros. -/

/-- Least `k ≤ 17` such that `q·10^k` is an integer, i.e. such that the
reduced denominator divides `10^k` (`17` when none exists: such values are
outside the domain this model covers exactly). -/
def decFracDigits (q : ℚ) : Nat :=
  (((List.range 18).filter (fun k => 10 ^ k % q.den = 0)).headD 17)

/-- Left-pad a string with `'0'` to length `k`. -/
def padZeros (s : String) (k : Nat) : String :=
  String.mk (List.replicate (k - s.length) '0') ++ s

/-- Fixed-notation decimal rendering of `|q|` for a rational with a finite
decimal expansion: with `k` fractional digits, `m = |num|·10^k / den` is the
exact scaled integer; print the integer part, then (when `k > 0`) `.` and
the `k` fractional digits. `k` minimal means no trailing fractional zeros. -/
def dtostrAbs (q : ℚ) : String :=
  let k := decFracDigits q
  let m := q.num.natAbs * 10 ^ k / q.den
  if k = 0 then natToDecimal m
  else natToDecimal (m / 10 ^ k) ++ "." ++ padZeros (natToDecimal (m % 10 ^ k)) k

/-- Modelled from glib (external collaborator, not under `src/`):
`g_ascii_dtostr` = `g_ascii_formatd (buf, len, "%.17g", d)`. For values whose
exact binary64 value has a finite decimal expansion of at most 17 digits in
fixed notation — every value the claims exercise — `%.17g` prints that exact
expansion with trailing fractional zeros trimmed and the ASCII `.` separator,
never a locale-dependent one. The payload is carried as `ℚ` since the code
only stores, copies and prints it. -/
def g_ascii_dtostr (q : ℚ) : String :=
  if q.num < 0 then "-" ++ dtostrAbs q else dtostrAbs q

/-! ### The argument value model (`SFArgType`, `SFArg`, `SFScript`)

`script-fu-types.h` / `script-fu-enums.h` are not under `src/`; the closed
set of type tags and the per-variant payloads are taken from the exhaustive
`switch` statements of `script-fu-script.c` itself (every switch enumerates
the same 21 tags). The C `default_value`/`value` union pair always holds the
variant selected by the `type` tag (a documented invariant), so the embedding
fuses tag, default value and current value into one sum type. -/

/-- The 21 argument type tags (`SFArgType`). -/
inductive SFArgType where
  | SF_IMAGE | SF_DRAWABLE | SF_LAYER | SF_CHANNEL | SF_VECTORS
  | SF_COLOR | SF_TOGGLE | SF_VALUE | SF_STRING | SF_ADJUSTMENT
  | SF_FONT | SF_PATTERN | SF_BRUSH | SF_GRADIENT | SF_FILENAME
  | SF_DIRNAME | SF_OPTION | SF_PALETTE | SF_TEXT | SF_ENUM | SF_DISPLAY
deriving DecidableEq, Fintype

/-- `SFBrush`: resource name plus opacity, spacing and paint mode. -/
structure SFBrush where
  name : String
  opacity : ℚ
  spacing : Int
  paint_mode : Int
deriving DecidableEq

/-- `GimpRGB` restricted to the channels the serializer reads. -/
structure SFColor where
  r : ℚ
  g : ℚ
  b : ℚ
deriving DecidableEq

/-- Type tag together with the default and current payload of that variant
(first field: `default_value`, second: `value`). The Option choice-label
list and the Enum type name live only in the default slot in the C code and
are never read by the operations embedded here, so the Option/Enum payload
is the selected history index. Likewise `SFAdjustment` is represented by its
`value` field — the only one these operations read or write. -/
inductive SFArgData where
  | image      (dflt cur : Int)
  | drawable   (dflt cur : Int)
  | layer      (dflt cur : Int)
  | channel    (dflt cur : Int)
  | vectors    (dflt cur : Int)
  | display    (dflt cur : Int)
  | color      (dflt cur : SFColor)
  | toggle     (dflt cur : Bool)
  | value      (dflt cur : String)
  | string     (dflt cur : String)
  | text       (dflt cur : String)
  | adjustment (dflt cur : ℚ)
  | filename   (dflt cur : String)
  | dirname    (dflt cur : String)
  | font       (dflt cur : String)
  | palette    (dflt cur : String)
  | pattern    (dflt cur : String)
  | gradient   (dflt cur : String)
  | brush      (dflt cur : SFBrush)
  | option     (dflt cur : Int)
  | enum       (dflt cur : Int)
deriving DecidableEq

/-- The `type` tag of an argument's data. -/
def SFArgData.typeOf : SFArgData → SFArgType
  | .image _ _ => .SF_IMAGE
  | .drawable _ _ => .SF_DRAWABLE
  | .layer _ _ => .SF_LAYER
  | .channel _ _ => .SF_CHANNEL
  | .vectors _ _ => .SF_VECTORS
  | .display _ _ => .SF_DISPLAY
  | .color _ _ => .SF_COLOR
  | .toggle _ _ => .SF_TOGGLE
  | .value _ _ => .SF_VALUE
  | .string _ _ => .SF_STRING
  | .text _ _ => .SF_TEXT
  | .adjustment _ _ => .SF_ADJUSTMENT
  | .filename _ _ => .SF_FILENAME
  | .dirname _ _ => .SF_DIRNAME
  | .font _ _ => .SF_FONT
  | .palette _ _ => .SF_PALETTE
  | .pattern _ _ => .SF_PATTERN
  | .gradient _ _ => .SF_GRADIENT
  | .brush _ _ => .SF_BRUSH
  | .option _ _ => .SF_OPTION
  | .enum _ _ => .SF_ENUM

/-- One `SFArg`: display label plus tagged default/current payloads. -/
structure SFArg where
  label : String
  data : SFArgData
deriving DecidableEq

/-- `SFScript`: script-level metadata plus the ordered argument sequence.
The C `n_args` field always equals the length of the allocated `args` array;
the list representation carries that invariant structurally. -/
structure SFScript where
  name : String
  menu_label : String
  blurb : String
  author : String
  copyright : String
  date : String
  image_types : String
  args : List SFArg
deriving DecidableEq

/-! ### Serializer (`script_fu_script_get_command`) -/

/-- Modelled from the spec: `script_fu_strescape` (script-fu-utils.c, not
under `src/`) — total backslash/quote escaping: each backslash or
double-quote in the input is preceded by a backslash. -/
def script_fu_strescape (s : String) : String :=
  String.mk ((s.toList.map (fun c =>
    if c = '\\' ∨ c = '"' then ['\\', c] else [c])).flatten)

/-- The Scheme quote character `U+0027` that introduces the quoted-list
tokens of the serializer. -/
def sfQuote : String := String.singleton (Char.ofNat 39)

/-- Wrap in double quotes (printf format `"\"%s\""`). -/
def quoted (s : String) : String := "\"" ++ s ++ "\""

/-- Modelled from libgimp (external boundary, not under `src/`):
`gimp_rgb_get_uchar` — each channel is clamped to `[0,1]`, scaled by 255 and
rounded (`ROUND(x) = (int)(x + 0.5)`); for `0 < x < 1` that floor of
`255·num/den + 1/2` is exactly `(510·num + den) / (2·den)` in `Nat`
division. -/
def gimp_rgb_get_uchar (x : ℚ) : Int :=
  if x.num ≤ 0 then 0
  else if x.den ≤ x.num.natAbs then 255
  else ((510 * x.num.natAbs + x.den) / (2 * x.den) : Nat)

/-- Per-variant token of `script_fu_script_get_command`'s `switch`: reads the
*current* value. Note the C code escapes String/Text/Filename/Dirname text
but passes the Value text, the four resource names and the brush name to
`%s` verbatim. -/
def sfArgTok : SFArgData → String
  | .image _ c | .drawable _ c | .layer _ c | .channel _ c
  | .vectors _ c | .display _ c => intToDecimal c
  | .color _ c =>
      sfQuote ++ "(" ++ intToDecimal (gimp_rgb_get_uchar c.r) ++ " "
         ++ intToDecimal (gimp_rgb_get_uchar c.g) ++ " "
         ++ intToDecimal (gimp_rgb_get_uchar c.b) ++ ")"
  | .toggle _ c => if c then "TRUE" else "FALSE"
  | .value _ c => c
  | .string _ c | .text _ c => quoted (script_fu_strescape c)
  | .adjustment _ c => g_ascii_dtostr c
  | .filename _ c | .dirname _ c => quoted (script_fu_strescape c)
  | .font _ c | .palette _ c | .pattern _ c | .gradient _ c => quoted c
  | .brush _ c =>
      sfQuote ++ "(" ++ quoted c.name ++ " " ++ g_ascii_dtostr c.opacity ++ " "
         ++ intToDecimal c.spacing ++ " " ++ intToDecimal c.paint_mode ++ ")"
  | .option _ c => intToDecimal c
  | .enum _ c => intToDecimal c

/-- The space-prefixed token run the serializer's loop appends for an
argument list. -/
def sfTokRun : List SFArg → String
  | [] => ""
  | a :: rest => " " ++ sfArgTok a.data ++ sfTokRun rest

/-- `script_fu_script_get_command`: `(` + name, then per argument a space
and its token, then `)`. -/
def script_fu_script_get_command (script : SFScript) : String :=
  "(" ++ script.name ++ sfTokRun script.args ++ ")"

/-! ### The invocation boundary (`GimpValueArray` of `GValue`s)

The run path hands the script a positional value array whose slot 0 is the
implicit run-mode; slots `1..n_args` map to the declared arguments. A
`GValue` carries a runtime type: for object values that is the GObject
class, which the `GIMP_VALUE_HOLDS_*` macros test up to subclassing
(`GimpLayer` and `GimpChannel` are subclasses of `GimpDrawable`). -/

/-- Concrete GObject classes an identity-bearing `GValue` can carry.
`gdrawable` stands for a concrete drawable that is neither a layer nor a
channel. -/
inductive GObjKind where
  | gimage | gdrawable | glayer | gchannel | gvectors | gdisplay
deriving DecidableEq

/-- A `GValue` of the invocation array. For object values, `oid = none`
models a NULL object reference (the slot still has its class type). -/
inductive GValue where
  | object (cls : GObjKind) (oid : Option Int)
  | rgb (c : SFColor)
  | boolean (b : Bool)
  | str (s : String)
  | double (d : ℚ)
  | int (i : Int)
deriving DecidableEq

/-- `GIMP_VALUE_HOLDS_IMAGE`. -/
def GValue.holdsImage : GValue → Bool
  | .object .gimage _ => true
  | _ => false

/-- `GIMP_VALUE_HOLDS_DRAWABLE`: true for any drawable subclass. -/
def GValue.holdsDrawable : GValue → Bool
  | .object .gdrawable _ | .object .glayer _ | .object .gchannel _ => true
  | _ => false

/-- `GIMP_VALUE_HOLDS_LAYER`. -/
def GValue.holdsLayer : GValue → Bool
  | .object .glayer _ => true
  | _ => false

/-- `GIMP_VALUE_HOLDS_CHANNEL`. -/
def GValue.holdsChannel : GValue → Bool
  | .object .gchannel _ => true
  | _ => false

/-- `GIMP_VALUE_HOLDS_VECTORS`. -/
def GValue.holdsVectors : GValue → Bool
  | .object .gvectors _ => true
  | _ => false

/-- `GIMP_VALUE_HOLDS_DISPLAY`. -/
def GValue.holdsDisplay : GValue → Bool
  | .object .gdisplay _ => true
  | _ => false

/-- `g_value_get_object` followed by the libgimp id getter
(`gimp_image_get_id` / `gimp_item_get_id` / `gimp_display_get_id`), which
returns `-1` for a NULL object. -/
def GValue.objectId : GValue → Int
  | .object _ (some i) => i
  | _ => -1

/-- `g_value_get_string` (the embedding needs it only on string-typed
values; the catch-all arm is unreachable on type-correct invocations). -/
def GValue.getString : GValue → String
  | .str s => s
  | _ => ""

/-- `g_value_get_boolean`. -/
def GValue.getBoolean : GValue → Bool
  | .boolean b => b
  | _ => false

/-- `g_value_get_double`. -/
def GValue.getDouble : GValue → ℚ
  | .double d => d
  | _ => mkRat 0 1

/-- `g_value_get_int`. -/
def GValue.getInt : GValue → Int
  | .int i => i
  | _ => 0

/-- `gimp_value_get_rgb`. -/
def GValue.getRgb : GValue → SFColor
  | .rgb c => c
  | _ => ⟨mkRat 0 1, mkRat 0 1, mkRat 0 1⟩

/-! ### Serializer from raw invocation values
(`script_fu_script_get_command_from_params`) -/

/-- Per-variant token of `script_fu_script_get_command_from_params`'s
`switch`: reads the raw `GValue` instead of the stored current value. Note
the differences from `sfArgTok`: Filename/Dirname are escaped together with
String/Text, while Font/Palette/Pattern/Gradient *and Brush* are printed as
one plain double-quoted string. -/
def sfArgTokFromParam (d : SFArgData) (v : GValue) : String :=
  match d with
  | .image _ _ | .drawable _ _ | .layer _ _ | .channel _ _
  | .vectors _ _ | .display _ _ => intToDecimal v.objectId
  | .color _ _ =>
      let c := v.getRgb
      sfQuote ++ "(" ++ intToDecimal (gimp_rgb_get_uchar c.r) ++ " "
         ++ intToDecimal (gimp_rgb_get_uchar c.g) ++ " "
         ++ intToDecimal (gimp_rgb_get_uchar c.b) ++ ")"
  | .toggle _ _ => if v.getBoolean then "TRUE" else "FALSE"
  | .value _ _ => v.getString
  | .string _ _ | .text _ _ | .filename _ _ | .dirname _ _ =>
      quoted (script_fu_strescape v.getString)
  | .adjustment _ _ => g_ascii_dtostr v.getDouble
  | .font _ _ | .palette _ _ | .pattern _ _ | .gradient _ _ | .brush _ _ =>
      quoted v.getString
  | .option _ _ | .enum _ _ => intToDecimal v.getInt

/-- The loop of `get_command_from_params`: argument `i` is paired with array
slot `i + 1`; the caller guarantees the array is long enough (reading past
the end is a contract violation in C, modelled by a harmless default). -/
def sfTokRunFromParams : List SFArg → List GValue → String
  | [], _ => ""
  | a :: rest, vs =>
      " " ++ sfArgTokFromParam a.data (vs.headD (GValue.int 0))
        ++ sfTokRunFromParams rest vs.tail

/-- `script_fu_script_get_command_from_params`. -/
def script_fu_script_get_command_from_params
    (script : SFScript) (args : List GValue) : String :=
  "(" ++ script.name ++ sfTokRunFromParams script.args (args.drop 1) ++ ")"

/-! ### Defaults resetter (`script_fu_script_reset`) -/

/-- The per-argument body of `script_fu_script_reset`'s loop: identity
variants copy `default_value` into `value` only when `reset_ids` is set;
every other variant copies unconditionally (string-ish payloads are freed
and replaced by a fresh `g_strdup` of the default, which on values is just
the copy). The default slot is only ever read. -/
def sfResetData (reset_ids : Bool) : SFArgData → SFArgData
  | .image dflt cur => .image dflt (if reset_ids then dflt else cur)
  | .drawable dflt cur => .drawable dflt (if reset_ids then dflt else cur)
  | .layer dflt cur => .layer dflt (if reset_ids then dflt else cur)
  | .channel dflt cur => .channel dflt (if reset_ids then dflt else cur)
  | .vectors dflt cur => .vectors dflt (if reset_ids then dflt else cur)
  | .display dflt cur => .display dflt (if reset_ids then dflt else cur)
  | .color dflt _ => .color dflt dflt
  | .toggle dflt _ => .toggle dflt dflt
  | .value dflt _ => .value dflt dflt
  | .string dflt _ => .string dflt dflt
  | .text dflt _ => .text dflt dflt
  | .adjustment dflt _ => .adjustment dflt dflt
  | .filename dflt _ => .filename dflt dflt
  | .dirname dflt _ => .dirname dflt dflt
  | .font dflt _ => .font dflt dflt
  | .palette dflt _ => .palette dflt dflt
  | .pattern dflt _ => .pattern dflt dflt
  | .gradient dflt _ => .gradient dflt dflt
  | .brush dflt _ => .brush dflt dflt
  | .option dflt _ => .option dflt dflt
  | .enum dflt _ => .enum dflt dflt

/-- `script_fu_script_reset`. -/
def script_fu_script_reset (script : SFScript) (reset_ids : Bool) : SFScript :=
  { script with
    args := script.args.map (fun a => { a with data := sfResetData reset_ids a.data }) }

/-! ### Standard-argument extractor
(`script_fu_script_param_init`, `script_fu_script_collect_standard_args`) -/

/-- Write a matched runtime identifier into the current value of an identity
argument (the C `arg->value.sfa_image = …` assignments; only identity
variants are ever written, guarded by the tag test in `param_init`). -/
def SFArgData.setCurId (d : SFArgData) (i : Int) : SFArgData :=
  match d with
  | .image dflt _ => .image dflt i
  | .drawable dflt _ => .drawable dflt i
  | .layer dflt _ => .layer dflt i
  | .channel dflt _ => .channel dflt i
  | .vectors dflt _ => .vectors dflt i
  | .display dflt _ => .display dflt i
  | other => other

/-- Replace the current value of argument `n` with runtime id `i`. -/
def sfSetArgId (script : SFScript) (n : Nat) (i : Int) : SFScript :=
  match script.args.get? n with
  | none => script
  | some a => { script with args := script.args.set n { a with data := a.data.setCurId i } }

/-- The `GIMP_VALUE_HOLDS_*` test `script_fu_script_param_init` applies for
each identity tag (its `switch`; the `default:` arm yields FALSE). -/
def sfHoldsFor (t : SFArgType) (v : GValue) : Bool :=
  match t with
  | .SF_IMAGE => v.holdsImage
  | .SF_DRAWABLE => v.holdsDrawable
  | .SF_LAYER => v.holdsLayer
  | .SF_CHANNEL => v.holdsChannel
  | .SF_VECTORS => v.holdsVectors
  | .SF_DISPLAY => v.holdsDisplay
  | _ => false

/-- `script_fu_script_param_init`: succeeds iff schema slot `n` exists and
has exactly tag `t`, array slot `n+1` exists and its runtime type satisfies
the `HOLDS` test for `t`; on success the runtime id is written into the
argument's current value. -/
def script_fu_script_param_init
    (script : SFScript) (args : List GValue) (t : SFArgType) (n : Nat) :
    Bool × SFScript :=
  match script.args.get? n with
  | none => (false, script)
  | some a =>
      if a.data.typeOf = t ∧ n + 1 < args.length then
        let v := args.getD (n + 1) (GValue.int 0)
        if sfHoldsFor t v then (true, sfSetArgId script n v.objectId)
        else (false, script)
      else (false, script)

/-- `script_fu_script_collect_standard_args`: probe DISPLAY at slot 0, then
IMAGE at the next unconsumed slot; only when IMAGE matched, probe DRAWABLE,
LAYER, CHANNEL, VECTORS in that order at the following slot (the C `||`
chain; a failed probe leaves the script untouched, so sequential chaining is
exact). Returns the number of consumed slots and the updated script. -/
def script_fu_script_collect_standard_args
    (script : SFScript) (args : List GValue) : Nat × SFScript :=
  let r1 := script_fu_script_param_init script args .SF_DISPLAY 0
  let c1 := if r1.1 then 1 else 0
  let r2 := script_fu_script_param_init r1.2 args .SF_IMAGE c1
  if r2.1 then
    let c2 := c1 + 1
    let r3 := script_fu_script_param_init r2.2 args .SF_DRAWABLE c2
    if r3.1 then (c2 + 1, r3.2)
    else
      let r4 := script_fu_script_param_init r3.2 args .SF_LAYER c2
      if r4.1 then (c2 + 1, r4.2)
      else
        let r5 := script_fu_script_param_init r4.2 args .SF_CHANNEL c2
        if r5.1 then (c2 + 1, r5.2)
        else
          let r6 := script_fu_script_param_init r5.2 args .SF_VECTORS c2
          if r6.1 then (c2 + 1, r6.2) else (c2, r6.2)
  else (c1, r2.2)

/-! ### Procedure descriptor builder
(`script_fu_script_create_PDB_procedure`) -/

/-- Canonical base machine name per tag (the first `switch` of the
builder's argument loop). -/
def sfBaseName : SFArgType → String
  | .SF_IMAGE => "image"
  | .SF_DRAWABLE => "drawable"
  | .SF_LAYER => "layer"
  | .SF_CHANNEL => "channel"
  | .SF_VECTORS => "vectors"
  | .SF_DISPLAY => "display"
  | .SF_COLOR => "color"
  | .SF_TOGGLE => "toggle"
  | .SF_VALUE => "value"
  | .SF_STRING => "string"
  | .SF_TEXT => "text"
  | .SF_ADJUSTMENT => "adjustment"
  | .SF_FILENAME => "filename"
  | .SF_DIRNAME => "dirname"
  | .SF_FONT => "font"
  | .SF_PALETTE => "palette"
  | .SF_PATTERN => "pattern"
  | .SF_BRUSH => "brush"
  | .SF_GRADIENT => "gradient"
  | .SF_OPTION => "option"
  | .SF_ENUM => "enum"

/-- Canonical base nickname per tag (same `switch`). -/
def sfBaseNick : SFArgType → String
  | .SF_IMAGE => "Image"
  | .SF_DRAWABLE => "Drawable"
  | .SF_LAYER => "Layer"
  | .SF_CHANNEL => "Channel"
  | .SF_VECTORS => "Vectors"
  | .SF_DISPLAY => "Display"
  | .SF_COLOR => "Color"
  | .SF_TOGGLE => "Toggle"
  | .SF_VALUE => "Value"
  | .SF_STRING => "String"
  | .SF_TEXT => "Text"
  | .SF_ADJUSTMENT => "Adjustment"
  | .SF_FILENAME => "Filename"
  | .SF_DIRNAME => "Dirname"
  | .SF_FONT => "Font"
  | .SF_PALETTE => "Palette"
  | .SF_PATTERN => "Pattern"
  | .SF_BRUSH => "Brush"
  | .SF_GRADIENT => "Gradient"
  | .SF_OPTION => "Option"
  | .SF_ENUM => "Enum"

/-- Machine name at a family-local occurrence count `c` (occurrences seen so
far): the first occurrence keeps the bare name, later ones get
`"%s-%d"` with `c + 1`. -/
def sfNumberedName (t : SFArgType) (c : Nat) : String :=
  if c = 0 then sfBaseName t else sfBaseName t ++ "-" ++ natToDecimal (c + 1)

/-- Nickname at occurrence count `c` (`"%s %d"`). -/
def sfNumberedNick (t : SFArgType) (c : Nat) : String :=
  if c = 0 then sfBaseNick t else sfBaseNick t ++ " " ++ natToDecimal (c + 1)

/-- One exported parameter descriptor: machine name, nickname, and the
argument's label as documentation blurb (the common data of every
`g_param_spec_*` call in the builder). -/
structure ParamSpec where
  name : String
  nick : String
  blurb : String
deriving DecidableEq

/-- The builder's argument loop. The C `arg_count` array (one counter per
type tag, all starting at zero, incremented after naming each argument) is
carried as a total map from tags to counts. -/
def sfBuildParams : List SFArg → (SFArgType → Nat) → List ParamSpec
  | [], _ => []
  | a :: rest, cnt =>
      let t := a.data.typeOf
      ⟨sfNumberedName t (cnt t), sfNumberedNick t (cnt t), a.label⟩ ::
        sfBuildParams rest (fun u => if u = t then cnt t + 1 else cnt u)

/-- The host-agnostic procedure metadata produced by the builder. -/
structure GimpProcedure where
  name : String
  image_types : String
  menu_label : Option String
  blurb : String
  author : String
  copyright : String
  date : String
  params : List ParamSpec
deriving DecidableEq

/-- `script_fu_script_create_PDB_procedure`: a menu label whose first six
characters are `"<None>"` (the C `strncmp (menu_label, "<None>", 6)`; a
label shorter than six characters never matches, since the comparison then
hits its terminating NUL) suppresses the menu label, as does an empty one;
the parameter list always starts with the implicit run-mode parameter. -/
def script_fu_script_create_PDB_procedure (script : SFScript) : GimpProcedure :=
  { name := script.name
    image_types := script.image_types
    menu_label :=
      if script.menu_label.take 6 = "<None>" then none
      else if script.menu_label.length ≠ 0 then some script.menu_label
      else none
    blurb := script.blurb
    author := script.author
    copyright := script.copyright
    date := script.date
    params := ⟨"run-mode", "Run mode", "The run mode"⟩ ::
      sfBuildParams script.args (fun _ => 0) }

/-! ### Title derivation (`script_fu_script_get_title`)

The C code inspects raw bytes of the UTF-8 menu label (the horizontal
ellipsis is the three bytes `"\342\200\246"`), so this part of the model
works on byte lists. -/

/-- The bytes of an ASCII string. -/
def asciiBytes (s : String) : List Nat := s.toList.map Char.toNat

/-- Modelled from the spec: `gimp_strip_uline` (libgimp, not under `src/`)
strips the mnemonic markers from a menu label — a single `'_'` (byte 95) is
removed, a doubled `"__"` stands for one literal underscore. -/
def gimp_strip_uline : List Nat → List Nat
  | [] => []
  | 95 :: 95 :: rest => 95 :: gimp_strip_uline rest
  | 95 :: rest => gimp_strip_uline rest
  | b :: rest => b :: gimp_strip_uline rest

/-- Index of the last occurrence of byte `b` (C `strrchr`). -/
def lastIdxOf : List Nat → Nat → Option Nat
  | [], _ => none
  | x :: xs, b =>
      match lastIdxOf xs b with
      | some p => some (p + 1)
      | none => if x = b then some 0 else none

/-- Does `bs` start with `pat`? -/
def seqStartsWith : List Nat → List Nat → Bool
  | _, [] => true
  | [], _ :: _ => false
  | x :: xs, p :: ps => x = p && seqStartsWith xs ps

/-- Index of the first occurrence of `pat` (C `strstr`). -/
def firstIdxOfSeq (pat : List Nat) : List Nat → Option Nat
  | [] => if seqStartsWith [] pat then some 0 else none
  | x :: xs =>
      if seqStartsWith (x :: xs) pat then some 0
      else (firstIdxOfSeq pat xs).map (· + 1)

/-- The ASCII ellipsis bytes `"..."`. -/
def asciiDots : List Nat := [46, 46, 46]

/-- The UTF-8 bytes of U+2026 HORIZONTAL ELLIPSIS (`"\342\200\246"`). -/
def utf8Ellipsis : List Nat := [226, 128, 166]

/-- The menu-path shortening step: if the stripped title begins with `'<'`
(byte 60) and contains a `'/'` (byte 47) whose last occurrence is not the
final byte (the C `tmp[1]` test), keep only what follows that last slash. -/
def sfTitleShorten (title : List Nat) : List Nat :=
  if title.headD 0 = 60 then
    match lastIdxOf title 47 with
    | some p => if p + 1 < title.length then title.drop (p + 1) else title
    | none => title
  else title

/-- The ellipsis-cutting step: find the *first* occurrence of `"..."`, or —
only when `"..."` occurs nowhere — the first occurrence of the UTF-8
horizontal ellipsis; cut it only when that occurrence sits in the final
three bytes. -/
def sfTitleCutEllipsis (title : List Nat) : List Nat :=
  let cut :=
    match firstIdxOfSeq asciiDots title with
    | some p => some p
    | none => firstIdxOfSeq utf8Ellipsis title
  match cut with
  | some p => if p + 3 = title.length then title.take p else title
  | none => title

/-- `script_fu_script_get_title` on the raw bytes of the menu label. -/
def script_fu_script_get_title (menu_label : List Nat) : List Nat :=
  sfTitleCutEllipsis (sfTitleShorten (gimp_strip_uline menu_label))

/-! ### Top-level tokenization of the rendered command

To state the spec's "exactly `1 + n_args` space-separated top-level tokens,
re-parseable as a single call expression", we scan the rendered text with
the embedding language's surface lexing discipline: double-quoted strings
with backslash escapes are single tokens, a parenthesized group is part of
one token, and spaces split tokens only at nesting depth zero outside
strings. -/

/-- Scanner mode: current parenthesis depth, whether inside a double-quoted
string, whether the previous character was an unconsumed backslash escape
inside a string, and whether we are inside a depth-zero token. -/
structure ScanMode where
  depth : Nat
  inStr : Bool
  esc : Bool
  inTok : Bool
deriving DecidableEq

/-- The initial scanner mode. -/
def ScanMode.start : ScanMode := ⟨0, false, false, false⟩

/-- One scanner step: the next mode and how many new top-level tokens this
character starts (0 or 1). -/
def scanChar (m : ScanMode) (c : Char) : ScanMode × Nat :=
  if m.inStr then
    if m.esc then ({ m with esc := false }, 0)
    else if c = '\\' then ({ m with esc := true }, 0)
    else if c = '"' then ({ m with inStr := false }, 0)
    else (m, 0)
  else
    let newTok := if m.depth = 0 ∧ m.inTok = false then 1 else 0
    if c = '(' then
      (⟨m.depth + 1, false, false, if m.depth = 0 then true else m.inTok⟩, newTok)
    else if c = ')' then
      (⟨m.depth - 1, false, false, if m.depth - 1 = 0 then true else m.inTok⟩, 0)
    else if c = '"' then
      (⟨m.depth, true, false, if m.depth = 0 then true else m.inTok⟩, newTok)
    else if c = ' ' then
      (if m.depth = 0 then { m with inTok := false } else m, 0)
    else
      ({ m with inTok := if m.depth = 0 then true else m.inTok }, newTok)

/-- Scan a character list, returning the final mode and the number of
top-level tokens started. -/
def scanList (m : ScanMode) : List Char → ScanMode × Nat
  | [] => (m, 0)
  | c :: cs =>
      let r := scanChar m c
      let rest := scanList r.1 cs
      (rest.1, r.2 + rest.2)

/-- The number of space-separated top-level tokens of a string. -/
def topTokenCount (s : String) : Nat := (scanList ScanMode.start s.toList).2

/-- A string re-parses as one single complete expression: it contains
exactly one top-level token and the scan ends at depth zero outside any
string. -/
def parsesAsSingleExpr (s : String) : Prop :=
  scanList ScanMode.start s.toList = (⟨0, false, false, true⟩, 1)

/-- `t` lexes as exactly one self-contained token: scanned from any mode at
depth `d` outside a string, it contributes one top-level token when at
depth zero outside a token, none otherwise, restores the depth, and ends
outside any string. -/
def ScanUnit (t : String) : Prop :=
  ∀ (d : Nat) (tk : Bool),
    scanList ⟨d, false, false, tk⟩ t.data
      = (⟨d, false, false, if d = 0 then true else tk⟩,
         if d = 0 ∧ tk = false then 1 else 0)

/-! ### Projections used to state frame and reset properties -/

/-- Identity (session-id-bearing) type tags. -/
def SFArgType.isIdentity : SFArgType → Bool
  | .SF_IMAGE | .SF_DRAWABLE | .SF_LAYER | .SF_CHANNEL
  | .SF_VECTORS | .SF_DISPLAY => true
  | _ => false

/-- A snapshot of one payload slot, independent of which slot (default or
current) it came from. -/
inductive SFAValue where
  | vid (i : Int)
  | vcolor (c : SFColor)
  | vtoggle (b : Bool)
  | vtext (s : String)
  | vadj (q : ℚ)
  | vbrush (b : SFBrush)
  | vhist (i : Int)
deriving DecidableEq

/-- The default-value slot of an argument. -/
def SFArgData.defaultPart : SFArgData → SFAValue
  | .image d _ | .drawable d _ | .layer d _ | .channel d _
  | .vectors d _ | .display d _ => .vid d
  | .color d _ => .vcolor d
  | .toggle d _ => .vtoggle d
  | .value d _ | .string d _ | .text d _ => .vtext d
  | .adjustment d _ => .vadj d
  | .filename d _ | .dirname d _ => .vtext d
  | .font d _ | .palette d _ | .pattern d _ | .gradient d _ => .vtext d
  | .brush d _ => .vbrush d
  | .option d _ | .enum d _ => .vhist d

/-- The current-value slot of an argument. -/
def SFArgData.currentPart : SFArgData → SFAValue
  | .image _ c | .drawable _ c | .layer _ c | .channel _ c
  | .vectors _ c | .display _ c => .vid c
  | .color _ c => .vcolor c
  | .toggle _ c => .vtoggle c
  | .value _ c | .string _ c | .text _ c => .vtext c
  | .adjustment _ c => .vadj c
  | .filename _ c | .dirname _ c => .vtext c
  | .font _ c | .palette _ c | .pattern _ c | .gradient _ c => .vtext c
  | .brush _ c => .vbrush c
  | .option _ c | .enum _ c => .vhist c

/-- Everything about an argument except its current value: label, type tag
and default payload. Frame properties say this projection is preserved. -/
def SFArg.frame (a : SFArg) : String × SFArgType × SFAValue :=
  (a.label, a.data.typeOf, a.data.defaultPart)

/-! ### Cleanliness predicates for the token-count property

The serializer quotes-and-escapes String/Text/Filename/Dirname text, so
those are always single tokens; but it prints Value text verbatim, and the
resource names (Font/Palette/Pattern/Gradient and the brush name) raw
inside double quotes. The token-count property therefore needs: the script
name and each Value text must themselves be single plain tokens, and
resource names must not contain a double quote or backslash. -/

/-- A character that cannot end or alter a top-level token: not a space,
parenthesis or double quote. -/
def plainChar (c : Char) : Bool :=
  ¬ (c = ' ' ∨ c = '(' ∨ c = ')' ∨ c = '"')

/-- A nonempty string of plain characters: lexes as exactly one token. -/
def PlainTok (s : String) : Bool :=
  !s.data.isEmpty && s.data.all plainChar

/-- String content safe to embed raw between double quotes: no double quote
and no backslash. -/
def RawStrSafe (s : String) : Bool :=
  s.data.all (fun c => ¬ (c = '"' ∨ c = '\\'))

/-- The per-argument condition under which an argument's rendered token is
a single well-formed token. -/
def SFArg.cleanTok (a : SFArg) : Bool :=
  match a.data with
  | .value _ c => PlainTok c
  | .font _ c | .palette _ c | .pattern _ c | .gradient _ c => RawStrSafe c
  | .brush _ c => RawStrSafe c.name
  | _ => true

/-! ### Decimal parsing (used to prove decimal printing injective) -/

/-- Fold a digit list back into the natural number it denotes. -/
def parseDec (cs : List Char) : Nat :=
  cs.foldl (fun a c => a * 10 + digitVal c) 0

/-- Decimal digit characters. -/
def isDigitCh (c : Char) : Bool :=
  c ∈ ['0', '1', '2', '3', '4', '5', '6', '7', '8', '9']

/-! ### Concrete scripts and invocations used by the examples the spec
fixes, by counterexamples and by witnesses -/

/-- The spec's round-trip script: `test-blur` with arguments
`[Adjustment default=3.5, Toggle default=true, String default="hello"]`,
current values equal to the defaults (`mkRat 7 2 = 3.5`). -/
def testBlurScript : SFScript :=
  { name := "test-blur"
    menu_label := "<Image>/Filters/Test"
    blurb := "b", author := "a", copyright := "c", date := "d"
    image_types := "*"
    args :=
      [ ⟨"Radius", .adjustment (mkRat 7 2) (mkRat 7 2)⟩
      , ⟨"Antialias", .toggle true true⟩
      , ⟨"Greeting", .string "hello" "hello"⟩ ] }

/-- A script with three Image-family arguments (the spec's
name-uniqueification example). -/
def threeImagesScript : SFScript :=
  { name := "three-images"
    menu_label := "<Image>/Filters/Test"
    blurb := "b", author := "a", copyright := "c", date := "d"
    image_types := "*"
    args :=
      [ ⟨"First image", .image (-1) (-1)⟩
      , ⟨"Second image", .image (-1) (-1)⟩
      , ⟨"Third image", .image (-1) (-1)⟩ ] }

/-- The extractor scenario schema `[Display, Image, Drawable, Adjustment]`. -/
def extractScript : SFScript :=
  { name := "extract-demo"
    menu_label := "<Image>/Filters/Test"
    blurb := "b", author := "a", copyright := "c", date := "d"
    image_types := "*"
    args :=
      [ ⟨"Display", .display (-1) (-1)⟩
      , ⟨"Image", .image (-1) (-1)⟩
      , ⟨"Drawable", .drawable (-1) (-1)⟩
      , ⟨"Radius", .adjustment (mkRat 3 2) (mkRat 3 2)⟩ ] }

/-- Invocation `[display_42, image_7, drawable_3, 1.5]` (slot 0 is the
implicit run-mode value). -/
def extractInvocationA : List GValue :=
  [ GValue.int 0
  , GValue.object .gdisplay (some 42)
  , GValue.object .gimage (some 7)
  , GValue.object .gdrawable (some 3)
  , GValue.double (mkRat 3 2) ]

/-- Invocation `[image_7, drawable_3, 1.5]` — no display value first. -/
def extractInvocationB : List GValue :=
  [ GValue.int 0
  , GValue.object .gimage (some 7)
  , GValue.object .gdrawable (some 3)
  , GValue.double (mkRat 3 2) ]

/-- A script with a single Brush argument. -/
def brushScript : SFScript :=
  { name := "bs"
    menu_label := "<Image>/Filters/Test"
    blurb := "b", author := "a", copyright := "c", date := "d"
    image_types := "*"
    args := [ ⟨"Brush", .brush ⟨"Circle", mkRat 1 2, 20, 0⟩ ⟨"Circle", mkRat 1 2, 20, 0⟩⟩ ] }

/-- An invocation for `brushScript`: a brush argument arrives over the
invocation boundary as a single string `GValue` (the brush name). -/
def brushInvocation : List GValue :=
  [ GValue.int 0, GValue.str "foo" ]

/-- A script whose Value argument holds multi-token text and whose Font
name contains a raw double quote: the token-count property fails on it. -/
def messyScript : SFScript :=
  { name := "f"
    menu_label := "<Image>/Filters/Test"
    blurb := "b", author := "a", copyright := "c", date := "d"
    image_types := "*"
    args :=
      [ ⟨"Passthrough", .value "1 2" "1 2"⟩
      , ⟨"Font", .font "a\"b" "a\"b"⟩ ] }

/-- The third step of the extractor as a function of the script state after
a successful image probe and the count `c2` of slots consumed so far: the C
`||` chain trying DRAWABLE, LAYER, CHANNEL, VECTORS in order at slot `c2`
(a failed probe leaves the script untouched, so the sequential chaining is
exactly the short-circuit `||`). Returns the final consumed count and
script. -/
def sfProbeItemChain (B : SFScript) (args : List GValue) (c2 : Nat) : Nat × SFScript :=
  let r3 := script_fu_script_param_init B args .SF_DRAWABLE c2
  if r3.1 then (c2 + 1, r3.2)
  else
    let r4 := script_fu_script_param_init r3.2 args .SF_LAYER c2
    if r4.1 then (c2 + 1, r4.2)
    else
      let r5 := script_fu_script_param_init r4.2 args .SF_CHANNEL c2
      if r5.1 then (c2 + 1, r5.2)
      else
        let r6 := script_fu_script_param_init r5.2 args .SF_VECTORS c2
        if r6.1 then (c2 + 1, r6.2) else (c2, r6.2)

/-- `t` agrees with `s` on everything except possibly some arguments'
current values: all script metadata, and every argument's label, type tag
and default payload. -/
def sfFrameEq (s t : SFScript) : Prop :=
  t.name = s.name ∧ t.menu_label = s.menu_label ∧ t.blurb = s.blurb ∧
  t.author = s.author ∧ t.copyright = s.copyright ∧ t.date = s.date ∧
  t.image_types = s.image_types ∧
  t.args.map SFArg.frame = s.args.map SFArg.frame

/-! ## Theorems -/

/-! ### Decimal-printing facts -/

theorem natDecAux_append (fuel n : Nat) (acc : List Char) :
    natDecAux fuel n acc = natDecAux fuel n [] ++ acc := by
  induction fuel generalizing n acc with
  | zero => simp [natDecAux]
  | succ fuel ih =>
      by_cases h : n < 10
      · simp [natDecAux, h]
      · simp only [natDecAux, if_neg h]
        rw [ih (n / 10) (digitOf (n % 10) :: acc), ih (n / 10) [digitOf (n % 10)]]
        simp

theorem natDecAux_digits (fuel n : Nat) (acc : List Char)
    (hacc : ∀ c ∈ acc, isDigitCh c = true) :
    ∀ c ∈ natDecAux fuel n acc, isDigitCh c = true := by
  induction fuel generalizing n acc with
  | zero => simpa [natDecAux] using hacc
  | succ fuel ih =>
      have hd : ∀ m : Nat, isDigitCh (digitOf m) = true := by
        intro m
        rcases m with _ | _ | _ | _ | _ | _ | _ | _ | _ | m <;> rfl
      by_cases h : n < 10
      · simp only [natDecAux, if_pos h]
        intro c hc
        rcases List.mem_cons.mp hc with hc | hc
        · simpa [hc] using hd n
        · exact hacc c hc
      · simp only [natDecAux, if_neg h]
        refine ih (n / 10) (digitOf (n % 10) :: acc) ?_
        intro c hc
        rcases List.mem_cons.mp hc with hc | hc
        · simpa [hc] using hd (n % 10)
        · exact hacc c hc

theorem natDecAux_ne_nil (fuel n : Nat) : natDecAux (fuel + 1) n [] ≠ [] := by
  by_cases h : n < 10
  · simp [natDecAux, h]
  · simp only [natDecAux, if_neg h]
    rw [natDecAux_append]
    rcases fuel with _ | fuel <;> simp [natDecAux]

theorem digitVal_digitOf (n : Nat) (h : n < 10) : digitVal (digitOf n) = n := by
  interval_cases n <;> rfl

theorem natDecAux_parse (fuel n : Nat) (h : n < fuel) :
    parseDec (natDecAux fuel n []) = n := by
  induction fuel generalizing n with
  | zero => omega
  | succ fuel ih =>
      by_cases h10 : n < 10
      · simp [natDecAux, h10, parseDec, List.foldl, digitVal_digitOf n h10]
      · simp only [natDecAux, if_neg h10]
        rw [natDecAux_append]
        have hlt : n / 10 < fuel := by
          have h1 : n / 10 < n := Nat.div_lt_self (by omega) (by omega)
          omega
        have hr := ih (n / 10) hlt
        simp only [parseDec] at hr ⊢
        rw [List.foldl_append, hr]
        simp [List.foldl, digitVal_digitOf (n % 10) (Nat.mod_lt n (by omega))]
        omega

theorem natToDecimal_parse (n : Nat) : parseDec (natToDecimal n).data = n := by
  simpa [natToDecimal] using natDecAux_parse (n + 1) n (by omega)

theorem natToDecimal_inj {a b : Nat} (h : natToDecimal a = natToDecimal b) : a = b := by
  have h2 := congrArg (fun s => parseDec (String.data s)) h
  simpa [natToDecimal_parse] using h2

theorem natToDecimal_digits (n : Nat) :
    ∀ c ∈ (natToDecimal n).toList, isDigitCh c = true := by
  intro c hc
  exact natDecAux_digits (n + 1) n [] (by simp) c (by simpa [natToDecimal] using hc)

theorem natToDecimal_ne_nil (n : Nat) : (natToDecimal n).toList ≠ [] := by
  simpa [natToDecimal] using natDecAux_ne_nil n n

/-! ### C1 — the concrete round-trip rendering -/

theorem testBlur_render_eq :
    script_fu_script_get_command testBlurScript = "(test-blur 3.5 TRUE \"hello\")" := by
  decide

/-- C1 (counterexample): with arguments `[Adjustment default=3.5,
Toggle default=true, String default="hello"]` at their defaults, `render`
does *not* produce the claimed `(test-blur 3.500000 TRUE "hello")`: the
serializer uses `g_ascii_dtostr` (`%.17g`, shortest form, trailing zeros
trimmed), not a fixed-precision `%f` format. -/
theorem C1_render_counterexample :
    script_fu_script_get_command testBlurScript ≠ "(test-blur 3.500000 TRUE \"hello\")" := by
  rw [testBlur_render_eq]
  decide

/-- C1 (amended): for the Script named `test-blur` with arguments
`[Adjustment default=3.5, Toggle default=true, String default="hello"]`
whose current values equal their defaults, `render` returns exactly
`(test-blur 3.5 TRUE "hello")` — the Adjustment value in `g_ascii_dtostr`'s
locale-independent shortest round-trip decimal format (`3.5`), not the
fixed-precision `3.500000`. -/
theorem C1_render_amended :
    script_fu_script_get_command testBlurScript = "(test-blur 3.5 TRUE \"hello\")" :=
  testBlur_render_eq

/-! ### C8 — the `<None>` menu-label sentinel -/

/-- C8: a menu label whose first six characters are `"<None>"` suppresses
menu registration (no label on the produced procedure); any other non-empty
label is registered verbatim. -/
theorem C8_menu_label_sentinel (s : SFScript) :
    (s.menu_label.take 6 = "<None>" →
        (script_fu_script_create_PDB_procedure s).menu_label = none) ∧
    (s.menu_label.take 6 ≠ "<None>" → s.menu_label ≠ "" →
        (script_fu_script_create_PDB_procedure s).menu_label = some s.menu_label) := by
  constructor
  · intro h
    simp [script_fu_script_create_PDB_procedure, h]
  · intro h hne
    have hlen : s.menu_label.length ≠ 0 := by
      intro h0
      exact hne (String.ext (List.length_eq_zero.mp h0))
    simp [script_fu_script_create_PDB_procedure, h, hlen]

theorem C8_menu_label_sentinel_witness :
    (script_fu_script_create_PDB_procedure
        { testBlurScript with menu_label := "<None> anything" }).menu_label = none ∧
    (script_fu_script_create_PDB_procedure testBlurScript).menu_label
      = some "<Image>/Filters/Test" := by
  constructor
  · exact (C8_menu_label_sentinel _).1 (by decide)
  · exact (C8_menu_label_sentinel testBlurScript).2 (by decide) (by decide)

/-! ### C3 — the standard-argument extractor -/

theorem collect_count_le_three (s : SFScript) (args : List GValue) :
    (script_fu_script_collect_standard_args s args).1 ≤ 3 := by
  unfold script_fu_script_collect_standard_args
  dsimp only
  repeat' split
  all_goals dsimp only
  all_goals omega

/-- C3: the extractor consumes at most 3 leading slots under its strictly
ordered probing, and on the spec's scenarios: schema
`[Display, Image, Drawable, Adjustment]` with invocation
`[display_42, image_7, drawable_3, 1.5]` consumes 3 slots writing the
runtime ids 42, 7, 3 into the first three arguments (fourth untouched),
while `[image_7, drawable_3, 1.5]` — no display value at position 0 —
consumes 0 and leaves the script unmodified. -/
theorem C3_extractor_ordered_probing (s : SFScript) (args : List GValue) :
    (script_fu_script_collect_standard_args s args).1 ≤ 3 ∧
    ((script_fu_script_collect_standard_args extractScript extractInvocationA).1 = 3 ∧
      (script_fu_script_collect_standard_args extractScript extractInvocationA).2.args.map
          (fun a => a.data.currentPart)
        = [.vid 42, .vid 7, .vid 3, .vadj (mkRat 3 2)]) ∧
    script_fu_script_collect_standard_args extractScript extractInvocationB
      = (0, extractScript) := by
  exact ⟨collect_count_le_three s args, ⟨by decide, by decide⟩, by decide⟩

/-! ### C4, C9 — the defaults resetter -/

theorem sfResetData_currentPart (flag : Bool) (d : SFArgData) :
    (sfResetData flag d).currentPart
      = if d.typeOf.isIdentity && !flag then d.currentPart else d.defaultPart := by
  cases flag <;> cases d <;> rfl

theorem sfResetData_frame (flag : Bool) (d : SFArgData) :
    (sfResetData flag d).typeOf = d.typeOf ∧
    (sfResetData flag d).defaultPart = d.defaultPart := by
  cases flag <;> cases d <;> exact ⟨rfl, rfl⟩

/-- C4: for every Script and both flag values, `reset` leaves the current
value of an identity argument untouched when the flag is false, and
otherwise — identity argument with flag true, or any non-identity
argument regardless of the flag — replaces the current value with a copy of
the declared default. Stated as one pointwise equation over the whole
argument list. -/
theorem C4_reset_values (s : SFScript) (flag : Bool) :
    (script_fu_script_reset s flag).args.map (fun a => a.data.currentPart)
      = s.args.map (fun a =>
          if a.data.typeOf.isIdentity && !flag then a.data.currentPart
          else a.data.defaultPart) := by
  simp only [script_fu_script_reset, List.map_map]
  refine List.map_congr_left ?_
  intro a _
  exact sfResetData_currentPart flag a.data

theorem reset_frame_step (s : SFScript) (flag : Bool) :
    (script_fu_script_reset s flag).name = s.name ∧
    (script_fu_script_reset s flag).menu_label = s.menu_label ∧
    (script_fu_script_reset s flag).blurb = s.blurb ∧
    (script_fu_script_reset s flag).author = s.author ∧
    (script_fu_script_reset s flag).copyright = s.copyright ∧
    (script_fu_script_reset s flag).date = s.date ∧
    (script_fu_script_reset s flag).image_types = s.image_types ∧
    (script_fu_script_reset s flag).args.map SFArg.frame = s.args.map SFArg.frame := by
  refine ⟨rfl, rfl, rfl, rfl, rfl, rfl, rfl, ?_⟩
  simp only [script_fu_script_reset, List.map_map]
  refine List.map_congr_left ?_
  intro a _
  have h := sfResetData_frame flag a.data
  simp [SFArg.frame, h.1, h.2]

/-- C9: across any sequence of resets (any flag values), every argument's
declared default payload — together with its label and type tag, and all
script metadata — is left unchanged: the resetter only reads defaults. -/
theorem C9_reset_defaults_immutable (s : SFScript) (flags : List Bool) :
    (flags.foldl script_fu_script_reset s).name = s.name ∧
    (flags.foldl script_fu_script_reset s).menu_label = s.menu_label ∧
    (flags.foldl script_fu_script_reset s).blurb = s.blurb ∧
    (flags.foldl script_fu_script_reset s).author = s.author ∧
    (flags.foldl script_fu_script_reset s).copyright = s.copyright ∧
    (flags.foldl script_fu_script_reset s).date = s.date ∧
    (flags.foldl script_fu_script_reset s).image_types = s.image_types ∧
    (flags.foldl script_fu_script_reset s).args.map SFArg.frame
      = s.args.map SFArg.frame := by
  induction flags generalizing s with
  | nil => exact ⟨rfl, rfl, rfl, rfl, rfl, rfl, rfl, rfl⟩
  | cons f rest ih =>
      have h1 := reset_frame_step s f
      have h2 := ih (script_fu_script_reset s f)
      simp only [List.foldl_cons]
      exact ⟨h2.1.trans h1.1, h2.2.1.trans h1.2.1, h2.2.2.1.trans h1.2.2.1,
        h2.2.2.2.1.trans h1.2.2.2.1, h2.2.2.2.2.1.trans h1.2.2.2.2.1,
        h2.2.2.2.2.2.1.trans h1.2.2.2.2.2.1,
        h2.2.2.2.2.2.2.1.trans h1.2.2.2.2.2.2.1,
        h2.2.2.2.2.2.2.2.trans h1.2.2.2.2.2.2.2⟩

/-! ### C10 — frame property of the extractor -/

theorem sfFrameEq_refl (s : SFScript) : sfFrameEq s s :=
  ⟨rfl, rfl, rfl, rfl, rfl, rfl, rfl, rfl⟩

theorem sfFrameEq_trans {s t u : SFScript}
    (h1 : sfFrameEq s t) (h2 : sfFrameEq t u) : sfFrameEq s u :=
  ⟨h2.1.trans h1.1, h2.2.1.trans h1.2.1, h2.2.2.1.trans h1.2.2.1,
    h2.2.2.2.1.trans h1.2.2.2.1, h2.2.2.2.2.1.trans h1.2.2.2.2.1,
    h2.2.2.2.2.2.1.trans h1.2.2.2.2.2.1,
    h2.2.2.2.2.2.2.1.trans h1.2.2.2.2.2.2.1,
    h2.2.2.2.2.2.2.2.trans h1.2.2.2.2.2.2.2⟩

theorem SFArgData.setCurId_frame (d : SFArgData) (i : Int) :
    (d.setCurId i).typeOf = d.typeOf ∧ (d.setCurId i).defaultPart = d.defaultPart := by
  cases d <;> exact ⟨rfl, rfl⟩

theorem sfSetArgId_frame (s : SFScript) (n : Nat) (i : Int) :
    sfFrameEq s (sfSetArgId s n i) ∧
    (∀ j, j ≠ n → (sfSetArgId s n i).args[j]? = s.args[j]?) := by
  unfold sfSetArgId
  split
  · exact ⟨sfFrameEq_refl s, fun _ _ => rfl⟩
  case _ a ha =>
    rw [List.get?_eq_getElem?] at ha
    constructor
    · refine ⟨rfl, rfl, rfl, rfl, rfl, rfl, rfl, ?_⟩
      rw [List.map_set]
      refine List.ext_getElem?_iff.mpr ?_
      intro j
      by_cases hj : j = n
      · subst hj
        have hlt : j < s.args.length := (List.getElem?_eq_some_iff.mp ha).1
        rw [List.getElem?_set_self (by simpa using hlt), List.getElem?_map, ha]
        have hfr := SFArgData.setCurId_frame a.data i
        simp [SFArg.frame, hfr.1, hfr.2]
      · rw [List.getElem?_set_ne (Ne.symm hj), List.getElem?_map]
    · intro j hj
      exact List.getElem?_set_ne (Ne.symm hj)

theorem param_init_frame (s : SFScript) (args : List GValue) (t : SFArgType) (n : Nat) :
    sfFrameEq s (script_fu_script_param_init s args t n).2 ∧
    (∀ j, j ≠ n → (script_fu_script_param_init s args t n).2.args[j]? = s.args[j]?) := by
  unfold script_fu_script_param_init
  rcases hg : s.args.get? n with _ | a
  · exact ⟨sfFrameEq_refl s, fun _ _ => rfl⟩
  · dsimp only
    by_cases hc : a.data.typeOf = t ∧ n + 1 < args.length
    · rw [if_pos hc]
      by_cases hh : sfHoldsFor t (args.getD (n + 1) (GValue.int 0)) = true
      · rw [if_pos hh]
        exact sfSetArgId_frame s n _
      · rw [if_neg hh]
        exact ⟨sfFrameEq_refl s, fun _ _ => rfl⟩
    · rw [if_neg hc]
      exact ⟨sfFrameEq_refl s, fun _ _ => rfl⟩

theorem param_init_fail (s : SFScript) (args : List GValue) (t : SFArgType) (n : Nat)
    (h : (script_fu_script_param_init s args t n).1 = false) :
    (script_fu_script_param_init s args t n).2 = s := by
  unfold script_fu_script_param_init at h ⊢
  rcases hg : s.args.get? n with _ | a
  · rfl
  · rw [hg] at h
    dsimp only at h ⊢
    by_cases hc : a.data.typeOf = t ∧ n + 1 < args.length
    · rw [if_pos hc] at h ⊢
      by_cases hh : sfHoldsFor t (args.getD (n + 1) (GValue.int 0)) = true
      · rw [if_pos hh] at h
        exact absurd h (by simp)
      · rw [if_neg hh]
    · rw [if_neg hc]

theorem collect_leafFF (s : SFScript) (args : List GValue)
    (h1 : (script_fu_script_param_init s args .SF_DISPLAY 0).1 = false)
    (h2 : (script_fu_script_param_init s args .SF_IMAGE 0).1 = false) :
    script_fu_script_collect_standard_args s args = (0, s) := by
  have e1 : (script_fu_script_param_init s args .SF_DISPLAY 0).2 = s :=
    param_init_fail s args .SF_DISPLAY 0 h1
  have e2 : (script_fu_script_param_init s args .SF_IMAGE 0).2 = s :=
    param_init_fail s args .SF_IMAGE 0 h2
  simp only [script_fu_script_collect_standard_args, h1, e1, Bool.false_eq_true,
    if_false, h2, e2]

theorem collect_leafTF (s : SFScript) (args : List GValue)
    (h1 : (script_fu_script_param_init s args .SF_DISPLAY 0).1 = true)
    (h2 : (script_fu_script_param_init
        (script_fu_script_param_init s args .SF_DISPLAY 0).2 args .SF_IMAGE 1).1 = false) :
    script_fu_script_collect_standard_args s args
      = (1, (script_fu_script_param_init s args .SF_DISPLAY 0).2) := by
  have e2 : (script_fu_script_param_init
      (script_fu_script_param_init s args .SF_DISPLAY 0).2 args .SF_IMAGE 1).2
      = (script_fu_script_param_init s args .SF_DISPLAY 0).2 :=
    param_init_fail _ args .SF_IMAGE 1 h2
  simp only [script_fu_script_collect_standard_args, h1, if_true, h2, e2,
    Bool.false_eq_true, if_false]

theorem collect_leafFT (s : SFScript) (args : List GValue)
    (h1 : (script_fu_script_param_init s args .SF_DISPLAY 0).1 = false)
    (h2 : (script_fu_script_param_init s args .SF_IMAGE 0).1 = true) :
    script_fu_script_collect_standard_args s args
      = sfProbeItemChain (script_fu_script_param_init s args .SF_IMAGE 0).2 args 1 := by
  have e1 : (script_fu_script_param_init s args .SF_DISPLAY 0).2 = s :=
    param_init_fail s args .SF_DISPLAY 0 h1
  simp only [script_fu_script_collect_standard_args, sfProbeItemChain, h1, e1,
    Bool.false_eq_true, if_false, h2, if_true]

theorem collect_leafTT (s : SFScript) (args : List GValue)
    (h1 : (script_fu_script_param_init s args .SF_DISPLAY 0).1 = true)
    (h2 : (script_fu_script_param_init
        (script_fu_script_param_init s args .SF_DISPLAY 0).2 args .SF_IMAGE 1).1 = true) :
    script_fu_script_collect_standard_args s args
      = sfProbeItemChain (script_fu_script_param_init
          (script_fu_script_param_init s args .SF_DISPLAY 0).2 args .SF_IMAGE 1).2 args 2 := by
  simp only [script_fu_script_collect_standard_args, sfProbeItemChain, h1, if_true, h2]

theorem sfProbeItemChain_cases (B : SFScript) (args : List GValue) (c2 : Nat) :
    sfProbeItemChain B args c2 = (c2, B) ∨
    ∃ F, sfProbeItemChain B args c2 = (c2 + 1, F) ∧ sfFrameEq B F ∧
      (∀ j, j ≠ c2 → F.args[j]? = B.args[j]?) := by
  unfold sfProbeItemChain
  by_cases h3 : (script_fu_script_param_init B args .SF_DRAWABLE c2).1 = true
  · refine Or.inr ⟨(script_fu_script_param_init B args .SF_DRAWABLE c2).2,
      by simp only [h3, if_true], ?_, ?_⟩
    · exact (param_init_frame B args .SF_DRAWABLE c2).1
    · exact fun j hj => (param_init_frame B args .SF_DRAWABLE c2).2 j hj
  · rw [Bool.not_eq_true] at h3
    have e3 := param_init_fail B args .SF_DRAWABLE c2 h3
    by_cases h4 : (script_fu_script_param_init
        (script_fu_script_param_init B args .SF_DRAWABLE c2).2 args .SF_LAYER c2).1 = true
    · rw [e3] at h4
      refine Or.inr ⟨(script_fu_script_param_init B args .SF_LAYER c2).2,
        by simp only [h3, Bool.false_eq_true, if_false, e3, h4, if_true], ?_, ?_⟩
      · exact (param_init_frame B args .SF_LAYER c2).1
      · exact fun j hj => (param_init_frame B args .SF_LAYER c2).2 j hj
    · rw [Bool.not_eq_true, e3] at h4
      have e4 := param_init_fail B args .SF_LAYER c2 h4
      by_cases h5 : (script_fu_script_param_init B args .SF_CHANNEL c2).1 = true
      · refine Or.inr ⟨(script_fu_script_param_init B args .SF_CHANNEL c2).2,
          by simp only [h3, Bool.false_eq_true, if_false, e3, h4, e4, h5, if_true], ?_, ?_⟩
        · exact (param_init_frame B args .SF_CHANNEL c2).1
        · exact fun j hj => (param_init_frame B args .SF_CHANNEL c2).2 j hj
      · rw [Bool.not_eq_true] at h5
        have e5 := param_init_fail B args .SF_CHANNEL c2 h5
        by_cases h6 : (script_fu_script_param_init B args .SF_VECTORS c2).1 = true
        · refine Or.inr ⟨(script_fu_script_param_init B args .SF_VECTORS c2).2,
            by simp only [h3, Bool.false_eq_true, if_false, e3, h4, e4, h5, e5, h6, if_true],
            ?_, ?_⟩
          · exact (param_init_frame B args .SF_VECTORS c2).1
          · exact fun j hj => (param_init_frame B args .SF_VECTORS c2).2 j hj
        · rw [Bool.not_eq_true] at h6
          have e6 := param_init_fail B args .SF_VECTORS c2 h6
          exact Or.inl (by simp only [h3, Bool.false_eq_true, if_false, e3, h4, e4, h5, e5,
            h6, e6])

/-- C10: the extractor modifies only the current values of the first
`count_consumed` arguments: all script metadata, every argument's label,
type tag and default payload are preserved, every argument at an index at
or beyond the returned count is completely untouched, and a call returning
0 leaves the script entirely unmodified. -/
theorem C10_collect_frame (s : SFScript) (args : List GValue) :
    sfFrameEq s (script_fu_script_collect_standard_args s args).2 ∧
    (∀ i, (script_fu_script_collect_standard_args s args).1 ≤ i →
        (script_fu_script_collect_standard_args s args).2.args[i]? = s.args[i]?) ∧
    ((script_fu_script_collect_standard_args s args).1 = 0 →
        (script_fu_script_collect_standard_args s args).2 = s) := by
  cases h1 : (script_fu_script_param_init s args .SF_DISPLAY 0).1 with
  | false =>
      cases h2 : (script_fu_script_param_init s args .SF_IMAGE 0).1 with
      | false =>
          rw [collect_leafFF s args h1 h2]
          exact ⟨sfFrameEq_refl s, fun _ _ => rfl, fun _ => rfl⟩
      | true =>
          have hc := collect_leafFT s args h1 h2
          have hB := param_init_frame s args .SF_IMAGE 0
          rcases sfProbeItemChain_cases
              (script_fu_script_param_init s args .SF_IMAGE 0).2 args 1 with
            hch | ⟨F, hch, hF, hFj⟩
          · rw [hc, hch]
            refine ⟨hB.1, ?_, ?_⟩
            · intro i hi
              exact hB.2 i (by omega)
            · intro h
              simp at h
          · rw [hc, hch]
            refine ⟨sfFrameEq_trans hB.1 hF, ?_, ?_⟩
            · intro i hi
              rw [hFj i (by omega)]
              exact hB.2 i (by omega)
            · intro h
              simp at h
  | true =>
      cases h2 : (script_fu_script_param_init
          (script_fu_script_param_init s args .SF_DISPLAY 0).2 args .SF_IMAGE 1).1 with
      | false =>
          rw [collect_leafTF s args h1 h2]
          have hA := param_init_frame s args .SF_DISPLAY 0
          refine ⟨hA.1, ?_, ?_⟩
          · intro i hi
            exact hA.2 i (by omega)
          · intro h
            simp at h
      | true =>
          have hc := collect_leafTT s args h1 h2
          have hA := param_init_frame s args .SF_DISPLAY 0
          have hB := param_init_frame
            (script_fu_script_param_init s args .SF_DISPLAY 0).2 args .SF_IMAGE 1
          rcases sfProbeItemChain_cases
              (script_fu_script_param_init
                (script_fu_script_param_init s args .SF_DISPLAY 0).2 args .SF_IMAGE 1).2
              args 2 with
            hch | ⟨F, hch, hF, hFj⟩
          · rw [hc, hch]
            refine ⟨sfFrameEq_trans hA.1 hB.1, ?_, ?_⟩
            · intro i hi
              rw [hB.2 i (by omega)]
              exact hA.2 i (by omega)
            · intro h
              simp at h
          · rw [hc, hch]
            refine ⟨sfFrameEq_trans hA.1 (sfFrameEq_trans hB.1 hF), ?_, ?_⟩
            · intro i hi
              rw [hFj i (by omega)]
              rw [hB.2 i (by omega)]
              exact hA.2 i (by omega)
            · intro h
              simp at h

theorem C10_collect_frame_witness :
    sfFrameEq extractScript
      (script_fu_script_collect_standard_args extractScript extractInvocationA).2 ∧
    (script_fu_script_collect_standard_args extractScript extractInvocationA).2.args[3]?
      = extractScript.args[3]? ∧
    (script_fu_script_collect_standard_args extractScript extractInvocationB).2
      = extractScript := by
  refine ⟨(C10_collect_frame extractScript extractInvocationA).1, ?_, ?_⟩
  · exact (C10_collect_frame extractScript extractInvocationA).2.1 3 (by decide)
  · exact (C10_collect_frame extractScript extractInvocationB).2.2 (by decide)

/-! ### C2 — deterministic unique parameter naming -/

theorem sfBaseName_inj : ∀ t u : SFArgType, sfBaseName t = sfBaseName u → t = u := by
  decide

theorem sfBaseNick_inj : ∀ t u : SFArgType, sfBaseNick t = sfBaseNick u → t = u := by
  decide

theorem sfBaseName_no_dash : ∀ t : SFArgType, '-' ∉ (sfBaseName t).data := by
  decide

theorem sfBaseName_ne_run : ∀ t : SFArgType, sfBaseName t ≠ "run" := by
  decide

theorem isDigitCh_ne_dash {c : Char} (h : isDigitCh c = true) : c ≠ '-' := by
  simp only [isDigitCh, List.mem_cons, decide_eq_true_eq, List.not_mem_nil, or_false] at h
  rcases h with h | h | h | h | h | h | h | h | h | h <;> subst h <;> decide

theorem natToDecimal_no_dash (n : Nat) : '-' ∉ (natToDecimal n).data := by
  intro hmem
  exact isDigitCh_ne_dash (natToDecimal_digits n _ hmem) rfl

theorem append_dash_inj {xs ys as bs : List Char}
    (hx : '-' ∉ xs) (ha : '-' ∉ as)
    (h : xs ++ '-' :: ys = as ++ '-' :: bs) : xs = as ∧ ys = bs := by
  induction xs generalizing as with
  | nil =>
      cases as with
      | nil => simpa using h
      | cons a as2 =>
          exfalso
          simp only [List.nil_append, List.cons_append, List.cons.injEq] at h
          exact ha (h.1 ▸ List.mem_cons_self a as2)
  | cons x xs2 ih =>
      cases as with
      | nil =>
          exfalso
          simp only [List.cons_append, List.nil_append, List.cons.injEq] at h
          exact hx (h.1 ▸ List.mem_cons_self x xs2)
      | cons a as2 =>
          simp only [List.cons_append, List.cons.injEq] at h
          have hx2 : '-' ∉ xs2 := fun hm => hx (List.mem_cons_of_mem x hm)
          have ha2 : '-' ∉ as2 := fun hm => ha (List.mem_cons_of_mem a hm)
          have := ih hx2 ha2 h.2
          exact ⟨by rw [h.1, this.1], this.2⟩

theorem sfNumberedName_inj {t u : SFArgType} {c d : Nat}
    (h : sfNumberedName t c = sfNumberedName u d) : t = u ∧ c = d := by
  unfold sfNumberedName at h
  by_cases hc : c = 0 <;> by_cases hd : d = 0
  · rw [if_pos hc, if_pos hd] at h
    exact ⟨sfBaseName_inj t u h, hc.trans hd.symm⟩
  · rw [if_pos hc, if_neg hd] at h
    exfalso
    have hdata := congrArg String.data h
    simp only [String.data_append] at hdata
    apply sfBaseName_no_dash t
    rw [hdata]
    refine List.mem_append.mpr (Or.inl ?_)
    exact List.mem_append.mpr (Or.inr (by simp))
  · rw [if_neg hc, if_pos hd] at h
    exfalso
    have hdata := congrArg String.data h
    simp only [String.data_append] at hdata
    apply sfBaseName_no_dash u
    rw [← hdata]
    refine List.mem_append.mpr (Or.inl ?_)
    exact List.mem_append.mpr (Or.inr (by simp))
  · rw [if_neg hc, if_neg hd] at h
    have hdata := congrArg String.data h
    simp only [String.data_append, List.append_assoc] at hdata
    have hsplit := append_dash_inj (sfBaseName_no_dash t) (sfBaseName_no_dash u)
      (by simpa using hdata)
    have ht : t = u := sfBaseName_inj t u (String.ext hsplit.1)
    have hcd : c + 1 = d + 1 := by
      have := natToDecimal_inj (String.ext hsplit.2)
      omega
    exact ⟨ht, by omega⟩

theorem sfNumberedName_ne_run_mode (t : SFArgType) (c : Nat) :
    sfNumberedName t c ≠ "run-mode" := by
  unfold sfNumberedName
  by_cases hc : c = 0
  · rw [if_pos hc]
    intro h
    apply sfBaseName_no_dash t
    rw [h]
    decide
  · rw [if_neg hc]
    intro h
    have hdata := congrArg String.data h
    simp only [String.data_append, List.append_assoc] at hdata
    have hdata2 : (sfBaseName t).data ++ '-' :: (natToDecimal (c + 1)).data
        = ['r', 'u', 'n'] ++ '-' :: ['m', 'o', 'd', 'e'] := by simpa using hdata
    have hsplit := append_dash_inj (sfBaseName_no_dash t)
      (show '-' ∉ (['r', 'u', 'n'] : List Char) by decide) hdata2
    exact sfBaseName_ne_run t (String.ext hsplit.1)

theorem sfBuildParams_names (args : List SFArg) (cnt : SFArgType → Nat) :
    ∀ p ∈ sfBuildParams args cnt, ∃ t c, p.name = sfNumberedName t c ∧ cnt t ≤ c := by
  induction args generalizing cnt with
  | nil => simp [sfBuildParams]
  | cons a rest ih =>
      intro p hp
      rcases List.mem_cons.mp hp with hp | hp
      · exact ⟨a.data.typeOf, cnt a.data.typeOf, by rw [hp], le_refl _⟩
      · rcases ih _ p hp with ⟨t, c, hname, hle⟩
        refine ⟨t, c, hname, le_trans ?_ hle⟩
        by_cases ht : t = a.data.typeOf <;> simp [ht]

theorem sfBuildParams_name_nodup (args : List SFArg) (cnt : SFArgType → Nat) :
    ((sfBuildParams args cnt).map (fun p => p.name)).Nodup := by
  induction args generalizing cnt with
  | nil => simp [sfBuildParams]
  | cons a rest ih =>
      simp only [sfBuildParams, List.map_cons, List.nodup_cons]
      constructor
      · intro hmem
        rcases List.mem_map.mp hmem with ⟨p, hp, hname⟩
        rcases sfBuildParams_names rest _ p hp with ⟨t, c, hn, hle⟩
        have hinj := sfNumberedName_inj (hn.symm.trans hname).symm
        rcases hinj with ⟨ht, hc⟩
        subst ht
        simp at hle
        omega
      · exact ih _

theorem sfBuildParams_getElem (args : List SFArg) (cnt : SFArgType → Nat)
    (i : Nat) (a : SFArg) (h : args[i]? = some a) :
    (sfBuildParams args cnt)[i]?
      = some ⟨sfNumberedName a.data.typeOf
                (cnt a.data.typeOf
                  + (args.take i).countP (fun b => b.data.typeOf == a.data.typeOf)),
              sfNumberedNick a.data.typeOf
                (cnt a.data.typeOf
                  + (args.take i).countP (fun b => b.data.typeOf == a.data.typeOf)),
              a.label⟩ := by
  induction args generalizing cnt i with
  | nil => simp at h
  | cons b rest ih =>
      cases i with
      | zero =>
          simp only [List.getElem?_cons_zero, Option.some.injEq] at h
          subst h
          simp [sfBuildParams]
      | succ i =>
          simp only [List.getElem?_cons_succ] at h
          have := ih (fun u => if u = b.data.typeOf then cnt b.data.typeOf + 1 else cnt u) i h
          simp only [sfBuildParams, List.getElem?_cons_succ]
          rw [this]
          congr 2
          · congr 1
            by_cases ht : a.data.typeOf = b.data.typeOf
            · simp [List.take_succ_cons, List.countP_cons, ht, beq_iff_eq]
              omega
            · have : (b.data.typeOf == a.data.typeOf) = false := by
                simp [beq_iff_eq]
                exact fun hh => ht hh.symm
              simp [List.take_succ_cons, List.countP_cons, this, ht]
          · congr 1
            by_cases ht : a.data.typeOf = b.data.typeOf
            · simp [List.take_succ_cons, List.countP_cons, ht, beq_iff_eq]
              omega
            · have : (b.data.typeOf == a.data.typeOf) = false := by
                simp [beq_iff_eq]
                exact fun hh => ht hh.symm
              simp [List.take_succ_cons, List.countP_cons, this, ht]

/-- C2: the builder names parameters with an independent per-type-family
occurrence counter — the parameter exported for the argument at index `i`
carries machine name `sfNumberedName t k` and nickname `sfNumberedNick t k`
where `k` counts earlier arguments of the same family (bare name for the
first occurrence, `"<base>-<k+1>"`/`"<Base> <k+1>"` afterwards); all
machine-visible parameter names (the implicit run-mode included) are
globally unique; and three Image arguments yield exactly `image`,
`image-2`, `image-3` / `Image`, `Image 2`, `Image 3`. -/
theorem C2_unique_param_names (s : SFScript) :
    ((script_fu_script_create_PDB_procedure s).params.map (fun p => p.name)).Nodup ∧
    (∀ i a, s.args[i]? = some a →
      (script_fu_script_create_PDB_procedure s).params[i + 1]?
        = some ⟨sfNumberedName a.data.typeOf
                  ((s.args.take i).countP (fun b => b.data.typeOf == a.data.typeOf)),
                sfNumberedNick a.data.typeOf
                  ((s.args.take i).countP (fun b => b.data.typeOf == a.data.typeOf)),
                a.label⟩) ∧
    ((script_fu_script_create_PDB_procedure threeImagesScript).params.map (fun p => p.name)
        = ["run-mode", "image", "image-2", "image-3"]) ∧
    ((script_fu_script_create_PDB_procedure threeImagesScript).params.map (fun p => p.nick)
        = ["Run mode", "Image", "Image 2", "Image 3"]) := by
  refine ⟨?_, ?_, by decide, by decide⟩
  · simp only [script_fu_script_create_PDB_procedure, List.map_cons, List.nodup_cons]
    constructor
    · intro hmem
      rcases List.mem_map.mp hmem with ⟨p, hp, hname⟩
      rcases sfBuildParams_names s.args _ p hp with ⟨t, c, hn, _⟩
      exact sfNumberedName_ne_run_mode t c (hn ▸ hname)
    · exact sfBuildParams_name_nodup s.args _
  · intro i a ha
    have h := sfBuildParams_getElem s.args (fun _ => 0) i a ha
    simp only [script_fu_script_create_PDB_procedure, List.getElem?_cons_succ]
    simpa using h

theorem C2_unique_param_names_witness :
    (script_fu_script_create_PDB_procedure threeImagesScript).params[3]?
      = some ⟨"image-3", "Image 3", "Third image"⟩ := by
  have h := (C2_unique_param_names threeImagesScript).2.1 2
    ⟨"Third image", .image (-1) (-1)⟩ (by decide)
  exact h.trans (by decide)

/-! ### C6 — the Brush token -/

theorem sfTokRun_append (xs ys : List SFArg) :
    sfTokRun (xs ++ ys) = sfTokRun xs ++ sfTokRun ys := by
  induction xs with
  | nil => simp [sfTokRun]
  | cons a rest ih =>
      simp only [List.cons_append, List.append_eq, sfTokRun, ih, String.append_assoc]

theorem sfTokRunFromParams_split (pre post : List SFArg) (a : SFArg)
    (vpre vpost : List GValue) (w : GValue) (hlen : vpre.length = pre.length) :
    sfTokRunFromParams (pre ++ a :: post) (vpre ++ w :: vpost)
      = sfTokRunFromParams pre (vpre ++ w :: vpost)
        ++ (" " ++ sfArgTokFromParam a.data w ++ sfTokRunFromParams post vpost) := by
  induction pre generalizing vpre with
  | nil =>
      cases vpre with
      | nil => simp [sfTokRunFromParams]
      | cons v vs => simp at hlen
  | cons b pre2 ih =>
      cases vpre with
      | nil => simp at hlen
      | cons v vs =>
          simp only [List.cons_append, List.append_eq, sfTokRunFromParams, List.headD_cons,
            List.tail_cons]
          rw [ih vs (by simpa using hlen)]
          simp [String.append_assoc]

/-- C6 (counterexample): over the invocation boundary a Brush argument is a
single string `GValue`; `render_from_invocation` prints it as one plain
double-quoted string — `(bs "foo")` — whose token does not even begin with
the quote character of the claimed `'("<name>" <opacity> <spacing>
<paint-mode>)` form; and in `render(script)` the brush *name* is printed
raw, not backslash-escaped as claimed. -/
theorem C6_brush_token_counterexample :
    (script_fu_script_get_command_from_params brushScript brushInvocation = "(bs \"foo\")" ∧
      (script_fu_script_get_command_from_params brushScript brushInvocation).data.getD 4 ' '
        ≠ sfQuote.data.getD 0 ' ') ∧
    (script_fu_script_get_command
        { brushScript with args :=
            [⟨"Brush", SFArgData.brush ⟨"a\\b", mkRat 1 1, 1, 2⟩ ⟨"a\\b", mkRat 1 1, 1, 2⟩⟩] }
      = "(bs " ++ sfQuote ++ "(\"a\\b\" 1 1 2))" ∧
     script_fu_script_get_command
        { brushScript with args :=
            [⟨"Brush", SFArgData.brush ⟨"a\\b", mkRat 1 1, 1, 2⟩ ⟨"a\\b", mkRat 1 1, 1, 2⟩⟩] }
      ≠ "(bs " ++ sfQuote ++ "(\"a\\\\b\" 1 1 2))") := by
  exact ⟨⟨by decide, by decide⟩, by decide, by decide⟩

/-- C6 (amended): in `render(script)` a Brush argument is encoded as the
token `'("<name>" <opacity> <spacing> <paint-mode>)` — the name
double-quoted but *not* escaped, the opacity in `g_ascii_dtostr`'s
locale-independent float format, spacing and paint mode as decimal
integers; in `render_from_invocation` a Brush argument arrives as a string
`GValue` and is encoded as that string double-quoted, unescaped. -/
theorem C6_brush_token_amended
    (s : SFScript) (pre post : List SFArg) (lbl : String) (b0 b : SFBrush)
    (hargs : s.args = pre ++ ⟨lbl, .brush b0 b⟩ :: post) :
    (script_fu_script_get_command s
      = "(" ++ s.name ++ sfTokRun pre
        ++ (" " ++ (sfQuote ++ "(" ++ ("\"" ++ b.name ++ "\"") ++ " "
              ++ g_ascii_dtostr b.opacity ++ " " ++ intToDecimal b.spacing ++ " "
              ++ intToDecimal b.paint_mode ++ ")"))
        ++ sfTokRun post ++ ")") ∧
    (∀ (vpre vpost : List GValue) (rm : GValue) (v : String),
      vpre.length = pre.length →
      script_fu_script_get_command_from_params s (rm :: vpre ++ GValue.str v :: vpost)
        = "(" ++ s.name ++ sfTokRunFromParams pre (vpre ++ GValue.str v :: vpost)
          ++ (" " ++ ("\"" ++ v ++ "\"")) ++ sfTokRunFromParams post vpost ++ ")") := by
  constructor
  · unfold script_fu_script_get_command
    rw [hargs, sfTokRun_append]
    simp only [sfTokRun, sfArgTok, quoted, String.append_assoc]
  · intro vpre vpost rm v hlen
    unfold script_fu_script_get_command_from_params
    rw [hargs]
    simp only [List.drop_one]
    rw [show (rm :: vpre ++ GValue.str v :: vpost).tail = vpre ++ GValue.str v :: vpost
      from rfl]
    rw [sfTokRunFromParams_split pre post _ vpre vpost (GValue.str v) hlen]
    simp only [sfArgTokFromParam, GValue.getString, quoted, String.append_assoc]

theorem C6_brush_token_amended_witness :
    (script_fu_script_get_command brushScript
      = "(" ++ brushScript.name ++ sfTokRun []
        ++ (" " ++ (sfQuote ++ "(" ++ ("\"" ++ (SFBrush.mk "Circle" (mkRat 1 2) 20 0).name ++ "\"") ++ " "
              ++ g_ascii_dtostr (SFBrush.mk "Circle" (mkRat 1 2) 20 0).opacity ++ " "
              ++ intToDecimal (SFBrush.mk "Circle" (mkRat 1 2) 20 0).spacing ++ " "
              ++ intToDecimal (SFBrush.mk "Circle" (mkRat 1 2) 20 0).paint_mode ++ ")"))
        ++ sfTokRun [] ++ ")") ∧
    (script_fu_script_get_command_from_params brushScript
        (GValue.int 0 :: [] ++ GValue.str "foo" :: [])
      = "(" ++ brushScript.name ++ sfTokRunFromParams [] ([] ++ GValue.str "foo" :: [])
          ++ (" " ++ ("\"" ++ "foo" ++ "\"")) ++ sfTokRunFromParams [] [] ++ ")") := by
  have h := C6_brush_token_amended brushScript [] [] "Brush"
    ⟨"Circle", mkRat 1 2, 20, 0⟩ ⟨"Circle", mkRat 1 2, 20, 0⟩ rfl
  exact ⟨h.1, h.2 [] [] (GValue.int 0) "foo" rfl⟩

/-! ### C7 — title derivation -/

theorem seqStartsWith_iff (bs pat : List Nat) :
    seqStartsWith bs pat = true ↔ pat <+: bs := by
  induction pat generalizing bs with
  | nil => simp [seqStartsWith, List.nil_prefix]
  | cons p ps ih =>
      cases bs with
      | nil =>
          simp [seqStartsWith]
      | cons b bs2 =>
          simp only [seqStartsWith, Bool.and_eq_true, decide_eq_true_eq, ih,
            List.cons_prefix_cons]
          constructor
          · rintro ⟨h1, h2⟩
            exact ⟨h1.symm, h2⟩
          · rintro ⟨h1, h2⟩
            exact ⟨h1.symm, h2⟩

theorem firstIdxOfSeq_some_iff (pat bs : List Nat) (p : Nat) :
    firstIdxOfSeq pat bs = some p ↔
      (pat <+: bs.drop p ∧ ∀ q, q < p → ¬ pat <+: bs.drop q) := by
  induction bs generalizing p with
  | nil =>
      unfold firstIdxOfSeq
      by_cases hsw : seqStartsWith [] pat = true
      · rw [if_pos hsw]
        have hp : pat <+: ([] : List Nat) := (seqStartsWith_iff [] pat).mp hsw
        constructor
        · rintro h
          cases h
          exact ⟨by simpa using hp, fun q hq => absurd hq (by omega)⟩
        · rintro ⟨h1, h2⟩
          rcases Nat.eq_zero_or_pos p with hz | hz
          · rw [hz]
          · exact absurd hp (by simpa using h2 0 hz)
      · rw [if_neg hsw]
        have hp : ¬ pat <+: ([] : List Nat) := fun hc =>
          hsw ((seqStartsWith_iff [] pat).mpr hc)
        constructor
        · rintro h
          cases h
        · rintro ⟨h1, h2⟩
          exact absurd (by simpa using h1) hp
  | cons b bs2 ih =>
      unfold firstIdxOfSeq
      by_cases hs : seqStartsWith (b :: bs2) pat = true
      · rw [if_pos hs]
        have hp : pat <+: (b :: bs2) := (seqStartsWith_iff _ pat).mp hs
        constructor
        · rintro h
          cases h
          exact ⟨by simpa using hp, by omega⟩
        · rintro ⟨h1, h2⟩
          rcases Nat.eq_zero_or_pos p with hz | hz
          · rw [hz]
          · exact absurd (by simpa using hp) (h2 0 hz)
      · rw [if_neg hs]
        have hp0 : ¬ pat <+: (b :: bs2) := fun hc =>
          hs ((seqStartsWith_iff _ pat).mpr hc)
        constructor
        · intro h
          rcases Option.map_eq_some'.mp h with ⟨p2, hp2, hpeq⟩
          rcases (ih p2).mp hp2 with ⟨h1, h2⟩
          subst hpeq
          refine ⟨by simpa using h1, ?_⟩
          intro q hq
          cases q with
          | zero => simpa using hp0
          | succ q2 =>
              have := h2 q2 (by omega)
              simpa using this
        · rintro ⟨h1, h2⟩
          cases p with
          | zero => exact absurd (by simpa using h1) hp0
          | succ p2 =>
              have hmem : firstIdxOfSeq pat bs2 = some p2 := by
                refine (ih p2).mpr ⟨by simpa using h1, ?_⟩
                intro q hq
                have := h2 (q + 1) (by omega)
                simpa using this
              rw [hmem]
              rfl

theorem firstIdxOfSeq_none_iff (pat bs : List Nat) :
    firstIdxOfSeq pat bs = none ↔ ∀ q, ¬ pat <+: bs.drop q := by
  induction bs with
  | nil =>
      unfold firstIdxOfSeq
      by_cases hs : seqStartsWith [] pat = true
      · rw [if_pos hs]
        have hp : pat <+: ([] : List Nat) := (seqStartsWith_iff [] pat).mp hs
        simp only [reduceCtorEq, false_iff, not_forall, not_not]
        exact ⟨0, by simpa using hp⟩
      · rw [if_neg hs]
        have hp : ¬ pat <+: ([] : List Nat) := fun hc =>
          hs ((seqStartsWith_iff [] pat).mpr hc)
        constructor
        · intro _ q
          simpa using hp
        · intro _
          rfl
  | cons b bs2 ih =>
      unfold firstIdxOfSeq
      by_cases hs : seqStartsWith (b :: bs2) pat = true
      · rw [if_pos hs]
        have hp : pat <+: (b :: bs2) := (seqStartsWith_iff _ pat).mp hs
        simp only [reduceCtorEq, false_iff, not_forall, not_not]
        exact ⟨0, by simpa using hp⟩
      · rw [if_neg hs]
        have hp0 : ¬ pat <+: (b :: bs2) := fun hc =>
          hs ((seqStartsWith_iff _ pat).mpr hc)
        simp only [Option.map_eq_none', ih]
        constructor
        · intro h q
          cases q with
          | zero => simpa using hp0
          | succ q2 => simpa using h q2
        · intro h q
          have := h (q + 1)
          simpa using this

theorem lastIdxOf_mem (bs : List Nat) (b : Nat) (p : Nat)
    (h : lastIdxOf bs b = some p) : bs[p]? = some b := by
  induction bs generalizing p with
  | nil => simp [lastIdxOf] at h
  | cons x xs ih =>
      unfold lastIdxOf at h
      rcases hlast : lastIdxOf xs b with _ | p2 <;> rw [hlast] at h
      · by_cases hxb : x = b
        · rw [if_pos hxb] at h
          cases h
          simpa using hxb
        · rw [if_neg hxb] at h
          cases h
      · cases h
        simpa using ih p2 hlast

theorem lastIdxOf_none_iff (bs : List Nat) (b : Nat) :
    lastIdxOf bs b = none ↔ ∀ q : Nat, bs[q]? ≠ some b := by
  induction bs with
  | nil => simp [lastIdxOf]
  | cons x xs ih =>
      unfold lastIdxOf
      rcases hlast : lastIdxOf xs b with _ | p2
      · by_cases hxb : x = b
        · rw [if_pos hxb]
          constructor
          · intro h
            cases h
          · intro h
            exact absurd (by simpa using hxb) (h 0)
        · rw [if_neg hxb]
          constructor
          · intro _ q
            cases q with
            | zero => simpa using hxb
            | succ q2 => simpa using (ih.mp hlast) q2
          · intro _
            rfl
      · have hocc : xs[p2]? = some b := lastIdxOf_mem xs b p2 hlast
        constructor
        · intro h
          cases h
        · intro h
          exact absurd (by simpa using hocc) (h (p2 + 1))

theorem lastIdxOf_some_iff (bs : List Nat) (b : Nat) (p : Nat) :
    lastIdxOf bs b = some p ↔
      (bs[p]? = some b ∧ ∀ q : Nat, p < q → bs[q]? ≠ some b) := by
  induction bs generalizing p with
  | nil => simp [lastIdxOf]
  | cons x xs ih =>
      unfold lastIdxOf
      rcases hlast : lastIdxOf xs b with _ | p2
      · have hni : ∀ q, xs[q]? ≠ some b := (lastIdxOf_none_iff xs b).mp hlast
        by_cases hxb : x = b
        · rw [if_pos hxb]
          cases p with
          | zero =>
              simp only [Option.some.injEq, List.getElem?_cons_zero, true_iff]
              refine ⟨by simp [hxb], ?_⟩
              intro q hq
              cases q with
              | zero => omega
              | succ q2 => simpa using hni q2
          | succ p3 =>
              constructor
              · intro h
                cases h
              · rintro ⟨h1, _⟩
                exact absurd (by simpa using h1) (hni p3)
        · rw [if_neg hxb]
          constructor
          · intro h
            cases h
          · rintro ⟨h1, _⟩
            cases p with
            | zero => exact absurd (by simpa using h1) hxb
            | succ p3 => exact absurd (by simpa using h1) (hni p3)
      · have hocc : xs[p2]? = some b := lastIdxOf_mem xs b p2 hlast
        cases p with
        | zero =>
            constructor
            · intro h
              cases h
            · rintro ⟨h1, h2⟩
              exact absurd (by simpa using hocc) (h2 (p2 + 1) (by omega))
        | succ p3 =>
            have hx : (x :: xs)[p3 + 1]? = xs[p3]? := by simp
            constructor
            · intro h
              have hpe : p3 = p2 := by
                have := Option.some.inj h
                omega
              subst hpe
              have := (ih p3).mp hlast
              refine ⟨by simpa using this.1, ?_⟩
              intro q hq
              cases q with
              | zero => omega
              | succ q2 => simpa using this.2 q2 (by omega)
            · rintro ⟨h1, h2⟩
              have hxs : lastIdxOf xs b = some p3 := by
                refine (ih p3).mpr ⟨by simpa using h1, ?_⟩
                intro q hq
                have := h2 (q + 1) (by omega)
                simpa using this
              rw [hlast] at hxs
              have := Option.some.inj hxs
              simp [this]

theorem sfTitleShorten_no_marker (t : List Nat) (h : t.headD 0 ≠ 60) :
    sfTitleShorten t = t := by
  unfold sfTitleShorten
  rw [if_neg h]

theorem sfTitleShorten_no_slash (t : List Nat) (h : 47 ∉ t) :
    sfTitleShorten t = t := by
  unfold sfTitleShorten
  have hnone : lastIdxOf t 47 = none := by
    refine (lastIdxOf_none_iff t 47).mpr ?_
    intro q hc
    exact h (List.getElem?_mem hc)
  rw [hnone]
  split <;> rfl

theorem sfTitleShorten_after_last_slash (u v : List Nat)
    (hhead : (u ++ 47 :: v).headD 0 = 60) (hv : 47 ∉ v) (hne : v ≠ []) :
    sfTitleShorten (u ++ 47 :: v) = v := by
  have hlast : lastIdxOf (u ++ 47 :: v) 47 = some u.length := by
    refine (lastIdxOf_some_iff _ _ _).mpr ⟨?_, ?_⟩
    · rw [List.getElem?_append_right (le_refl u.length)]
      simp
    · intro q hq hc
      rw [List.getElem?_append_right (by omega)] at hc
      apply hv
      have hv2 : v[q - u.length - 1]? = some 47 := by
        rcases hqm : q - u.length with _ | k
        · omega
        · rw [hqm] at hc
          simpa using hc
      exact List.getElem?_mem hv2
  unfold sfTitleShorten
  rw [if_pos hhead, hlast]
  dsimp only
  have hlen : u.length + 1 < (u ++ 47 :: v).length := by
    rcases v with _ | ⟨x, v2⟩
    · exact absurd rfl hne
    · simp [List.length_append]
  rw [if_pos hlen]
  have hsplit : u ++ 47 :: v = (u ++ [47]) ++ v := by simp
  rw [hsplit]
  have hlen2 : (u ++ [47]).length = u.length + 1 := by simp
  rw [← hlen2]
  exact List.drop_left (u ++ [47]) v

theorem sfTitleShorten_trailing_slash (u : List Nat) :
    sfTitleShorten (u ++ [47]) = u ++ [47] := by
  unfold sfTitleShorten
  by_cases hh : (u ++ [47]).headD 0 = 60
  · rw [if_pos hh]
    have hlast : lastIdxOf (u ++ [47]) 47 = some u.length := by
      refine (lastIdxOf_some_iff _ _ _).mpr ⟨?_, ?_⟩
      · rw [List.getElem?_append_right (le_refl u.length)]
        simp
      · intro q hq hc
        have hn : (u ++ [47])[q]? = none :=
          List.getElem?_eq_none_iff.mpr (by simp; omega)
        rw [hn] at hc
        cases hc
    rw [hlast]
    dsimp only
    have hnl : ¬ (u.length + 1 < (u ++ [47]).length) := by simp
    rw [if_neg hnl]
  · rw [if_neg hh]

theorem sfTitleCutEllipsis_dots_first (t : List Nat) (p : Nat)
    (h1 : asciiDots <+: t.drop p) (h2 : ∀ q, q < p → ¬ asciiDots <+: t.drop q) :
    sfTitleCutEllipsis t = if p + 3 = t.length then t.take p else t := by
  unfold sfTitleCutEllipsis
  rw [(firstIdxOfSeq_some_iff asciiDots t p).mpr ⟨h1, h2⟩]

theorem sfTitleCutEllipsis_uni_first (t : List Nat) (p : Nat)
    (h0 : ∀ q, ¬ asciiDots <+: t.drop q)
    (h1 : utf8Ellipsis <+: t.drop p) (h2 : ∀ q, q < p → ¬ utf8Ellipsis <+: t.drop q) :
    sfTitleCutEllipsis t = if p + 3 = t.length then t.take p else t := by
  unfold sfTitleCutEllipsis
  rw [(firstIdxOfSeq_none_iff asciiDots t).mpr h0,
    (firstIdxOfSeq_some_iff utf8Ellipsis t p).mpr ⟨h1, h2⟩]

theorem sfTitleCutEllipsis_no_ellipsis (t : List Nat)
    (h0 : ∀ q, ¬ asciiDots <+: t.drop q) (h1 : ∀ q, ¬ utf8Ellipsis <+: t.drop q) :
    sfTitleCutEllipsis t = t := by
  unfold sfTitleCutEllipsis
  rw [(firstIdxOfSeq_none_iff asciiDots t).mpr h0,
    (firstIdxOfSeq_none_iff utf8Ellipsis t).mpr h1]

/-- C7 (counterexample): the menu label `"a...b..."` (no mnemonics, no menu
path) ends with the ASCII ellipsis, yet `get_title` leaves it unchanged —
the code strips only when the *first* occurrence of `"..."` sits in the
final three bytes, and here the first occurrence is at index 1. -/
theorem C7_title_counterexample :
    script_fu_script_get_title (asciiBytes "a...b...") = asciiBytes "a...b..." ∧
    asciiBytes "a...b..." = asciiBytes "a...b" ++ asciiDots ∧
    script_fu_script_get_title (asciiBytes "a...b...") ≠ asciiBytes "a...b" := by
  exact ⟨by decide, by decide, by decide⟩

/-- C7 (amended): `get_title` strips mnemonic markers, then — when the
stripped title begins with `'<'` and its last `'/'` is not the final byte —
keeps only the substring after that last slash, and finally removes the
ellipsis only when the *first* occurrence of `"..."` (or, when `"..."`
occurs nowhere, the first occurrence of the UTF-8 horizontal ellipsis)
occupies exactly the final three bytes. The spec's example still holds:
`"<Image>/Filters/Blur/Gaussian Blur..."` yields `"Gaussian Blur"`. -/
theorem C7_title_amended :
    (∀ bs, script_fu_script_get_title bs
        = sfTitleCutEllipsis (sfTitleShorten (gimp_strip_uline bs))) ∧
    (∀ t : List Nat, t.headD 0 ≠ 60 → sfTitleShorten t = t) ∧
    (∀ t : List Nat, 47 ∉ t → sfTitleShorten t = t) ∧
    (∀ u v : List Nat, (u ++ 47 :: v).headD 0 = 60 → 47 ∉ v → v ≠ [] →
        sfTitleShorten (u ++ 47 :: v) = v) ∧
    (∀ u : List Nat, sfTitleShorten (u ++ [47]) = u ++ [47]) ∧
    (∀ (t : List Nat) (p : Nat), asciiDots <+: t.drop p →
        (∀ q, q < p → ¬ asciiDots <+: t.drop q) →
        sfTitleCutEllipsis t = if p + 3 = t.length then t.take p else t) ∧
    (∀ (t : List Nat) (p : Nat), (∀ q, ¬ asciiDots <+: t.drop q) →
        utf8Ellipsis <+: t.drop p →
        (∀ q, q < p → ¬ utf8Ellipsis <+: t.drop q) →
        sfTitleCutEllipsis t = if p + 3 = t.length then t.take p else t) ∧
    (∀ t : List Nat, (∀ q, ¬ asciiDots <+: t.drop q) →
        (∀ q, ¬ utf8Ellipsis <+: t.drop q) → sfTitleCutEllipsis t = t) ∧
    script_fu_script_get_title (asciiBytes "<Image>/Filters/Blur/Gaussian Blur...")
      = asciiBytes "Gaussian Blur" := by
  refine ⟨fun bs => rfl, sfTitleShorten_no_marker, sfTitleShorten_no_slash,
    sfTitleShorten_after_last_slash, sfTitleShorten_trailing_slash,
    sfTitleCutEllipsis_dots_first, sfTitleCutEllipsis_uni_first,
    sfTitleCutEllipsis_no_ellipsis, by decide⟩

theorem C7_title_amended_witness :
    sfTitleShorten (asciiBytes "abc") = asciiBytes "abc" ∧
    sfTitleShorten (asciiBytes "<I>x") = asciiBytes "<I>x" ∧
    sfTitleShorten (asciiBytes "<I>" ++ 47 :: asciiBytes "x") = asciiBytes "x" ∧
    sfTitleShorten (asciiBytes "<I>" ++ [47]) = asciiBytes "<I>" ++ [47] ∧
    sfTitleCutEllipsis (asciiBytes "ab...")
      = (if 2 + 3 = (asciiBytes "ab...").length then (asciiBytes "ab...").take 2
         else asciiBytes "ab...") ∧
    sfTitleCutEllipsis ([97, 98] ++ utf8Ellipsis)
      = (if 2 + 3 = ([97, 98] ++ utf8Ellipsis : List Nat).length
         then ([97, 98] ++ utf8Ellipsis : List Nat).take 2
         else [97, 98] ++ utf8Ellipsis) ∧
    sfTitleCutEllipsis (asciiBytes "ab") = asciiBytes "ab" := by
  have hnodots2 : ∀ q, ¬ asciiDots <+: (asciiBytes "ab").drop q := by
    intro q
    by_cases hq : q < 3
    · interval_cases q <;> decide
    · rw [List.drop_eq_nil_of_le (by simp [asciiBytes]; omega)]
      decide
  have hnodotsu : ∀ q, ¬ asciiDots <+: (([97, 98] ++ utf8Ellipsis : List Nat)).drop q := by
    intro q
    by_cases hq : q < 6
    · interval_cases q <;> decide
    · rw [List.drop_eq_nil_of_le (by simp [utf8Ellipsis]; omega)]
      decide
  have hnouni2 : ∀ q, ¬ utf8Ellipsis <+: (asciiBytes "ab").drop q := by
    intro q
    by_cases hq : q < 3
    · interval_cases q <;> decide
    · rw [List.drop_eq_nil_of_le (by simp [asciiBytes]; omega)]
      decide
  refine ⟨C7_title_amended.2.1 _ (by decide),
    C7_title_amended.2.2.1 _ (by decide),
    C7_title_amended.2.2.2.1 (asciiBytes "<I>") (asciiBytes "x")
      (by decide) (by decide) (by decide),
    C7_title_amended.2.2.2.2.1 (asciiBytes "<I>"),
    C7_title_amended.2.2.2.2.2.1 (asciiBytes "ab...") 2 (by decide) (by decide),
    C7_title_amended.2.2.2.2.2.2.1 ([97, 98] ++ utf8Ellipsis) 2 hnodotsu
      (by decide) (by decide),
    C7_title_amended.2.2.2.2.2.2.2.1 (asciiBytes "ab") hnodots2 hnouni2⟩

/-! ### C5 — top-level token count of the rendered command -/

theorem scanList_append (m : ScanMode) (xs ys : List Char) :
    scanList m (xs ++ ys)
      = ((scanList (scanList m xs).1 ys).1,
         (scanList m xs).2 + (scanList (scanList m xs).1 ys).2) := by
  induction xs generalizing m with
  | nil => simp [scanList]
  | cons c cs ih =>
      simp only [List.cons_append, List.append_eq, scanList, ih]
      simp [Nat.add_assoc]
      
theorem scanChar_plain (d : Nat) (tk : Bool) (c : Char) (hc : plainChar c = true) :
    scanChar ⟨d, false, false, tk⟩ c
      = (⟨d, false, false, if d = 0 then true else tk⟩,
         if d = 0 ∧ tk = false then 1 else 0) := by
  simp only [plainChar, decide_eq_true_eq] at hc
  push_neg at hc
  obtain ⟨hsp, hop, hcl, hqu⟩ := hc
  simp [scanChar, hsp, hop, hcl, hqu]

theorem scan_plain_run (cs : List Char) (h : ∀ c ∈ cs, plainChar c = true)
    (d : Nat) (tk : Bool) :
    scanList ⟨d, false, false, tk⟩ cs
      = (⟨d, false, false, if cs.length = 0 then tk else if d = 0 then true else tk⟩,
         if 0 < cs.length ∧ d = 0 ∧ tk = false then 1 else 0) := by
  induction cs generalizing tk with
  | nil => simp [scanList]
  | cons c cs2 ih =>
      simp only [scanList]
      rw [scanChar_plain d tk c (h c (List.mem_cons_self c cs2))]
      rw [ih (fun c2 hc2 => h c2 (List.mem_cons_of_mem c hc2)) (if d = 0 then true else tk)]
      by_cases hd : d = 0
      · subst hd
        rcases cs2 with _ | ⟨c2, cs3⟩ <;> cases tk <;> simp
      · rcases cs2 with _ | ⟨c2, cs3⟩ <;> simp [hd]

theorem scanUnit_plain (t : String) (h : PlainTok t = true) : ScanUnit t := by
  intro d tk
  simp only [PlainTok, Bool.and_eq_true, Bool.not_eq_true', List.all_eq_true] at h
  obtain ⟨hne, hall⟩ := h
  have hlen : 0 < t.data.length := by
    cases hd : t.data
    · rw [hd] at hne
      simp at hne
    · simp [hd]
  rw [scan_plain_run t.data hall d tk]
  have h1 : t.data.length ≠ 0 := by omega
  have hlen2 : 0 < t.length := hlen
  have h2 : t.length ≠ 0 := by omega
  simp [h1, hlen, hlen2, h2]

theorem scan_instring_raw (cs : List Char)
    (h : ∀ c ∈ cs, ¬ (c = '"' ∨ c = '\\')) (d : Nat) (tk : Bool) :
    scanList ⟨d, true, false, tk⟩ cs = (⟨d, true, false, tk⟩, 0) := by
  induction cs with
  | nil => simp [scanList]
  | cons c cs2 ih =>
      have hc := h c (List.mem_cons_self c cs2)
      push_neg at hc
      simp only [scanList]
      rw [show scanChar ⟨d, true, false, tk⟩ c = (⟨d, true, false, tk⟩, 0) by
        simp [scanChar, hc.1, hc.2]]
      rw [ih (fun c2 hc2 => h c2 (List.mem_cons_of_mem c hc2))]
      simp

theorem scan_instring_escaped_list (cs : List Char) (d : Nat) (tk : Bool) :
    scanList ⟨d, true, false, tk⟩
      ((cs.map (fun c => if c = '\\' ∨ c = '"' then ['\\', c] else [c])).flatten)
      = (⟨d, true, false, tk⟩, 0) := by
  induction cs with
  | nil => simp [scanList]
  | cons c cs2 ih =>
      simp only [List.map_cons, List.flatten_cons]
      rw [scanList_append]
      by_cases hc : c = '\\' ∨ c = '"'
      · rw [if_pos hc]
        have hstep : scanList ⟨d, true, false, tk⟩ ['\\', c]
            = (⟨d, true, false, tk⟩, 0) := by
          simp [scanList, scanChar]
        rw [hstep, ih]
        simp
      · rw [if_neg hc]
        push_neg at hc
        have hstep : scanList ⟨d, true, false, tk⟩ [c]
            = (⟨d, true, false, tk⟩, 0) := by
          simp [scanList, scanChar, hc.2, hc.1]
        rw [hstep, ih]
        simp

theorem scan_instring_escaped (s : String) (d : Nat) (tk : Bool) :
    scanList ⟨d, true, false, tk⟩ (script_fu_strescape s).data
      = (⟨d, true, false, tk⟩, 0) :=
  scan_instring_escaped_list s.data d tk

theorem isDigitCh_plain {c : Char} (h : isDigitCh c = true) : plainChar c = true := by
  simp only [isDigitCh, List.mem_cons, decide_eq_true_eq, List.not_mem_nil, or_false] at h
  rcases h with h | h | h | h | h | h | h | h | h | h <;> subst h <;> decide

theorem natToDecimal_chars (n : Nat) :
    ∀ c ∈ (natToDecimal n).data, plainChar c = true := by
  intro c hc
  exact isDigitCh_plain (natToDecimal_digits n c hc)

theorem natToDecimal_data_ne_nil (n : Nat) : (natToDecimal n).data ≠ [] :=
  natToDecimal_ne_nil n

theorem intToDecimal_chars (i : Int) :
    ∀ c ∈ (intToDecimal i).data, plainChar c = true := by
  intro c hc
  unfold intToDecimal at hc
  by_cases hi : i < 0
  · rw [if_pos hi] at hc
    rw [String.data_append] at hc
    rcases List.mem_append.mp hc with hc | hc
    · simp only [show ("-" : String).data = ['-'] from rfl, List.mem_singleton] at hc
      subst hc
      decide
    · exact natToDecimal_chars _ c hc
  · rw [if_neg hi] at hc
    exact natToDecimal_chars _ c hc

theorem intToDecimal_data_ne_nil (i : Int) : (intToDecimal i).data ≠ [] := by
  unfold intToDecimal
  by_cases hi : i < 0
  · rw [if_pos hi, String.data_append]
    simp
  · rw [if_neg hi]
    exact natToDecimal_data_ne_nil _

theorem padZeros_chars (s : String) (k : Nat)
    (h : ∀ c ∈ s.data, plainChar c = true) :
    ∀ c ∈ (padZeros s k).data, plainChar c = true := by
  intro c hc
  unfold padZeros at hc
  rw [String.data_append] at hc
  rcases List.mem_append.mp hc with hc | hc
  · have := List.eq_of_mem_replicate (by simpa using hc)
    subst this
    decide
  · exact h c hc

theorem dtostrAbs_chars (q : ℚ) :
    ∀ c ∈ (dtostrAbs q).data, plainChar c = true := by
  intro c hc
  unfold dtostrAbs at hc
  by_cases hk : decFracDigits q = 0
  · rw [if_pos hk] at hc
    exact natToDecimal_chars _ c hc
  · rw [if_neg hk] at hc
    rw [String.data_append, String.data_append] at hc
    rcases List.mem_append.mp hc with hc | hc
    · rcases List.mem_append.mp hc with hc | hc
      · exact natToDecimal_chars _ c hc
      · simp only [show ("." : String).data = ['.'] from rfl, List.mem_singleton] at hc
        subst hc
        decide
    · exact padZeros_chars _ _ (natToDecimal_chars _) c hc

theorem dtostrAbs_data_ne_nil (q : ℚ) : (dtostrAbs q).data ≠ [] := by
  unfold dtostrAbs
  by_cases hk : decFracDigits q = 0
  · rw [if_pos hk]
    exact natToDecimal_data_ne_nil _
  · rw [if_neg hk, String.data_append, String.data_append]
    intro hc
    rcases List.append_eq_nil.mp hc with ⟨hc1, _⟩
    rcases List.append_eq_nil.mp hc1 with ⟨hc2, _⟩
    exact natToDecimal_data_ne_nil _ hc2

theorem g_ascii_dtostr_chars (q : ℚ) :
    ∀ c ∈ (g_ascii_dtostr q).data, plainChar c = true := by
  intro c hc
  unfold g_ascii_dtostr at hc
  by_cases hq : q.num < 0
  · rw [if_pos hq, String.data_append] at hc
    rcases List.mem_append.mp hc with hc | hc
    · simp only [show ("-" : String).data = ['-'] from rfl, List.mem_singleton] at hc
      subst hc
      decide
    · exact dtostrAbs_chars q c hc
  · rw [if_neg hq] at hc
    exact dtostrAbs_chars q c hc

theorem g_ascii_dtostr_data_ne_nil (q : ℚ) : (g_ascii_dtostr q).data ≠ [] := by
  unfold g_ascii_dtostr
  by_cases hq : q.num < 0
  · rw [if_pos hq, String.data_append]
    simp
  · rw [if_neg hq]
    exact dtostrAbs_data_ne_nil q

theorem plainTok_of_parts (s : String) (hne : s.data ≠ [])
    (h : ∀ c ∈ s.data, plainChar c = true) : PlainTok s = true := by
  simp only [PlainTok, Bool.and_eq_true, Bool.not_eq_true', List.all_eq_true]
  refine ⟨?_, h⟩
  cases hd : s.data
  · exact absurd hd hne
  · simp

theorem intToDecimal_plainTok (i : Int) : PlainTok (intToDecimal i) = true :=
  plainTok_of_parts _ (intToDecimal_data_ne_nil i) (intToDecimal_chars i)

theorem g_ascii_dtostr_plainTok (q : ℚ) : PlainTok (g_ascii_dtostr q) = true :=
  plainTok_of_parts _ (g_ascii_dtostr_data_ne_nil q) (g_ascii_dtostr_chars q)

theorem scanChar_dquote_open (d : Nat) (tk : Bool) :
    scanChar ⟨d, false, false, tk⟩ '"'
      = (⟨d, true, false, if d = 0 then true else tk⟩,
         if d = 0 ∧ tk = false then 1 else 0) := by
  simp [scanChar]

theorem scanChar_dquote_close (d : Nat) (tk : Bool) :
    scanChar ⟨d, true, false, tk⟩ '"' = (⟨d, false, false, tk⟩, 0) := by
  simp [scanChar]

theorem scanChar_open_paren (d : Nat) (tk : Bool) :
    scanChar ⟨d, false, false, tk⟩ '('
      = (⟨d + 1, false, false, if d = 0 then true else tk⟩,
         if d = 0 ∧ tk = false then 1 else 0) := by
  simp [scanChar]

theorem scanChar_close_paren (d : Nat) (tk : Bool) :
    scanChar ⟨d + 1, false, false, tk⟩ ')'
      = (⟨d, false, false, if d = 0 then true else tk⟩, 0) := by
  simp [scanChar]

theorem scanChar_space_pos (d : Nat) (tk : Bool) :
    scanChar ⟨d + 1, false, false, tk⟩ ' ' = (⟨d + 1, false, false, tk⟩, 0) := by
  simp [scanChar]

theorem scanUnit_quoted_of_content (s : String)
    (hcontent : ∀ (d : Nat) (tk : Bool),
      scanList ⟨d, true, false, tk⟩ s.data = (⟨d, true, false, tk⟩, 0)) :
    ScanUnit ("\"" ++ s ++ "\"") := by
  intro d tk
  have hdata : ("\"" ++ s ++ "\"").data = '"' :: (s.data ++ ['"']) := by
    rw [String.data_append, String.data_append]
    rfl
  rw [hdata]
  simp only [scanList]
  rw [scanChar_dquote_open]
  rw [scanList_append, hcontent]
  simp only [scanList]
  rw [scanChar_dquote_close]
  simp

theorem scanUnit_quoted_raw (s : String) (h : RawStrSafe s = true) :
    ScanUnit ("\"" ++ s ++ "\"") := by
  refine scanUnit_quoted_of_content s ?_
  intro d tk
  refine scan_instring_raw s.data ?_ d tk
  intro c hc
  simp only [RawStrSafe, List.all_eq_true, decide_eq_true_eq] at h
  exact h c hc

theorem scanUnit_quoted_escaped (s : String) :
    ScanUnit ("\"" ++ script_fu_strescape s ++ "\"") :=
  scanUnit_quoted_of_content _ (fun d tk => scan_instring_escaped s d tk)

theorem scanUnit_quote_paren (interior : List Char)
    (hint : ∀ (d : Nat) (tk : Bool),
      scanList ⟨d + 1, false, false, tk⟩ interior = (⟨d + 1, false, false, tk⟩, 0)) :
    ∀ (d : Nat) (tk : Bool),
      scanList ⟨d, false, false, tk⟩ (Char.ofNat 39 :: '(' :: (interior ++ [')']))
        = (⟨d, false, false, if d = 0 then true else tk⟩,
           if d = 0 ∧ tk = false then 1 else 0) := by
  intro d tk
  simp only [scanList]
  rw [scanChar_plain d tk (Char.ofNat 39) (by decide)]
  rw [scanChar_open_paren]
  rw [scanList_append, hint]
  simp only [scanList]
  rw [scanChar_close_paren]
  by_cases hd : d = 0
  · subst hd
    cases tk <;> simp
  · simp [hd]

theorem scan_plain_pos (cs : List Char) (h : ∀ c ∈ cs, plainChar c = true)
    (d : Nat) (tk : Bool) :
    scanList ⟨d + 1, false, false, tk⟩ cs = (⟨d + 1, false, false, tk⟩, 0) := by
  rw [scan_plain_run cs h (d + 1) tk]
  simp

theorem scanUnit_color_tok (x y z : String)
    (hx : ∀ c ∈ x.data, plainChar c = true)
    (hy : ∀ c ∈ y.data, plainChar c = true)
    (hz : ∀ c ∈ z.data, plainChar c = true) :
    ScanUnit (sfQuote ++ "(" ++ x ++ " " ++ y ++ " " ++ z ++ ")") := by
  have hdata : (sfQuote ++ "(" ++ x ++ " " ++ y ++ " " ++ z ++ ")").data
      = Char.ofNat 39 :: '(' :: ((x.data ++ ' ' :: (y.data ++ ' ' :: z.data)) ++ [')']) := by
    simp only [String.data_append, sfQuote, String.singleton]
    simp
  intro d tk
  rw [hdata]
  refine scanUnit_quote_paren _ ?_ d tk
  intro d2 tk2
  rw [scanList_append, scan_plain_pos x.data hx d2 tk2]
  simp only [scanList]
  rw [scanChar_space_pos]
  rw [scanList_append, scan_plain_pos y.data hy d2 tk2]
  simp only [scanList]
  rw [scanChar_space_pos]
  rw [scan_plain_pos z.data hz d2 tk2]
  simp

theorem scanUnit_brush_tok (nm dt sp pm : String)
    (hnm : RawStrSafe nm = true)
    (hdt : ∀ c ∈ dt.data, plainChar c = true)
    (hsp : ∀ c ∈ sp.data, plainChar c = true)
    (hpm : ∀ c ∈ pm.data, plainChar c = true) :
    ScanUnit (sfQuote ++ "(" ++ ("\"" ++ nm ++ "\"") ++ " " ++ dt ++ " " ++ sp ++ " "
      ++ pm ++ ")") := by
  have hdata : (sfQuote ++ "(" ++ ("\"" ++ nm ++ "\"") ++ " " ++ dt ++ " " ++ sp ++ " "
        ++ pm ++ ")").data
      = Char.ofNat 39 :: '(' ::
          ((("\"" ++ nm ++ "\"").data
            ++ (' ' :: (dt.data ++ ' ' :: (sp.data ++ ' ' :: pm.data)))) ++ [')']) := by
    simp only [String.data_append, sfQuote, String.singleton]
    simp
  intro d tk
  rw [hdata]
  refine scanUnit_quote_paren _ ?_ d tk
  intro d2 tk2
  rw [scanList_append]
  have hq : scanList ⟨d2 + 1, false, false, tk2⟩ ("\"" ++ nm ++ "\"").data
      = (⟨d2 + 1, false, false, tk2⟩, 0) := by
    rw [scanUnit_quoted_raw nm hnm (d2 + 1) tk2]
    simp
  rw [hq]
  simp only [scanList]
  rw [scanChar_space_pos]
  rw [scanList_append, scan_plain_pos dt.data hdt d2 tk2]
  simp only [scanList]
  rw [scanChar_space_pos]
  rw [scanList_append, scan_plain_pos sp.data hsp d2 tk2]
  simp only [scanList]
  rw [scanChar_space_pos]
  rw [scan_plain_pos pm.data hpm d2 tk2]
  simp

theorem sfArgTok_unit (a : SFArg) (h : a.cleanTok = true) : ScanUnit (sfArgTok a.data) := by
  obtain ⟨lbl, dat⟩ := a
  cases dat with
  | image dflt cur => exact scanUnit_plain _ (intToDecimal_plainTok cur)
  | drawable dflt cur => exact scanUnit_plain _ (intToDecimal_plainTok cur)
  | layer dflt cur => exact scanUnit_plain _ (intToDecimal_plainTok cur)
  | channel dflt cur => exact scanUnit_plain _ (intToDecimal_plainTok cur)
  | vectors dflt cur => exact scanUnit_plain _ (intToDecimal_plainTok cur)
  | display dflt cur => exact scanUnit_plain _ (intToDecimal_plainTok cur)
  | color dflt cur =>
      exact scanUnit_color_tok _ _ _ (intToDecimal_chars _) (intToDecimal_chars _)
        (intToDecimal_chars _)
  | toggle dflt cur =>
      cases cur
      · exact scanUnit_plain "FALSE" (by decide)
      · exact scanUnit_plain "TRUE" (by decide)
  | value dflt cur => exact scanUnit_plain _ h
  | string dflt cur => exact scanUnit_quoted_escaped cur
  | text dflt cur => exact scanUnit_quoted_escaped cur
  | adjustment dflt cur => exact scanUnit_plain _ (g_ascii_dtostr_plainTok cur)
  | filename dflt cur => exact scanUnit_quoted_escaped cur
  | dirname dflt cur => exact scanUnit_quoted_escaped cur
  | font dflt cur => exact scanUnit_quoted_raw cur h
  | palette dflt cur => exact scanUnit_quoted_raw cur h
  | pattern dflt cur => exact scanUnit_quoted_raw cur h
  | gradient dflt cur => exact scanUnit_quoted_raw cur h
  | brush dflt cur =>
      exact scanUnit_brush_tok cur.name _ _ _ h (g_ascii_dtostr_chars _)
        (intToDecimal_chars _) (intToDecimal_chars _)
  | option dflt cur => exact scanUnit_plain _ (intToDecimal_plainTok cur)
  | enum dflt cur => exact scanUnit_plain _ (intToDecimal_plainTok cur)

theorem scan_run_zero (args : List SFArg) (h : ∀ a ∈ args, a.cleanTok = true) (b : Bool) :
    scanList ⟨0, false, false, b⟩ (sfTokRun args).data
      = (⟨0, false, false, if args.length = 0 then b else true⟩, args.length) := by
  induction args generalizing b with
  | nil => simp [sfTokRun, scanList]
  | cons a rest ih =>
      have hdata : (sfTokRun (a :: rest)).data
          = ' ' :: ((sfArgTok a.data).data ++ (sfTokRun rest).data) := by
        simp [sfTokRun, String.data_append]
      rw [hdata]
      simp only [scanList]
      rw [show scanChar ⟨0, false, false, b⟩ ' ' = (⟨0, false, false, false⟩, 0) by
        simp [scanChar]]
      rw [scanList_append]
      have hu0 := sfArgTok_unit a (h a (List.mem_cons_self a rest)) 0 false
      have hu : scanList ⟨0, false, false, false⟩ (sfArgTok a.data).data
          = (⟨0, false, false, true⟩, 1) := by
        rw [hu0]
        simp
      rw [hu]
      rw [ih (fun x hx => h x (List.mem_cons_of_mem a hx)) true]
      rcases rest with _ | ⟨r, rs⟩ <;> simp
      omega

theorem scan_run_pos (args : List SFArg) (h : ∀ a ∈ args, a.cleanTok = true)
    (d : Nat) (tk : Bool) :
    scanList ⟨d + 1, false, false, tk⟩ (sfTokRun args).data
      = (⟨d + 1, false, false, tk⟩, 0) := by
  induction args with
  | nil => simp [sfTokRun, scanList]
  | cons a rest ih =>
      have hdata : (sfTokRun (a :: rest)).data
          = ' ' :: ((sfArgTok a.data).data ++ (sfTokRun rest).data) := by
        simp [sfTokRun, String.data_append]
      rw [hdata]
      simp only [scanList]
      rw [scanChar_space_pos]
      rw [scanList_append]
      have hu : scanList ⟨d + 1, false, false, tk⟩ (sfArgTok a.data).data
          = (⟨d + 1, false, false, tk⟩, 0) := by
        rw [sfArgTok_unit a (h a (List.mem_cons_self a rest)) (d + 1) tk]
        simp
      rw [hu]
      rw [ih (fun x hx => h x (List.mem_cons_of_mem a hx))]
      simp

/-- C5 (counterexample): a Value argument's text is inserted verbatim, so a
script with a Value argument holding `"1 2"` and a Font name containing a
raw double quote renders as `(f 1 2 "a"b")`: the part inside the
parentheses lexes as 4 top-level tokens, not `1 + n_args = 3`, and the
whole text does not re-parse as a single balanced expression. -/
theorem C5_token_count_counterexample :
    script_fu_script_get_command messyScript = "(" ++ "f 1 2 \"a\"b\"" ++ ")" ∧
    messyScript.args.length = 2 ∧
    topTokenCount "f 1 2 \"a\"b\"" = 4 ∧
    topTokenCount "f 1 2 \"a\"b\"" ≠ 1 + messyScript.args.length ∧
    ¬ parsesAsSingleExpr (script_fu_script_get_command messyScript) := by
  refine ⟨by decide, by decide, by decide, by decide, ?_⟩
  unfold parsesAsSingleExpr
  decide

/-- C5 (amended): provided the script name is a plain token, every Value
argument's text is itself a nonempty plain token, and the raw-printed
resource names (Font/Palette/Pattern/Gradient, and the brush name) contain
no double quote or backslash, `render` produces `(` + body + `)` whose body
lexes as exactly `1 + n_args` space-separated top-level tokens — the script
name plus one token per declared argument, however many the extractor
consumed — and the whole text re-parses as a single balanced call
expression. Without those conditions the count can differ (see the
counterexample). -/
theorem C5_token_count_amended (s : SFScript)
    (hname : PlainTok s.name = true) (hclean : ∀ a ∈ s.args, a.cleanTok = true) :
    script_fu_script_get_command s = "(" ++ (s.name ++ sfTokRun s.args) ++ ")" ∧
    topTokenCount (s.name ++ sfTokRun s.args) = 1 + s.args.length ∧
    parsesAsSingleExpr (script_fu_script_get_command s) := by
  have hbody0 : scanList ⟨0, false, false, false⟩ (s.name ++ sfTokRun s.args).data
      = (⟨0, false, false, true⟩, 1 + s.args.length) := by
    rw [String.data_append, scanList_append]
    have hn : scanList ⟨0, false, false, false⟩ s.name.data
        = (⟨0, false, false, true⟩, 1) := by
      rw [scanUnit_plain s.name hname 0 false]
      simp
    rw [hn]
    rw [scan_run_zero s.args hclean true]
    rcases hargs : s.args with _ | ⟨a, rest⟩ <;> simp
  have heq : script_fu_script_get_command s
      = "(" ++ (s.name ++ sfTokRun s.args) ++ ")" := by
    unfold script_fu_script_get_command
    simp [String.append_assoc]
  have hcount : topTokenCount (s.name ++ sfTokRun s.args) = 1 + s.args.length := by
    unfold topTokenCount
    rw [show (s.name ++ sfTokRun s.args).toList = (s.name ++ sfTokRun s.args).data from rfl]
    rw [show ScanMode.start = (⟨0, false, false, false⟩ : ScanMode) from rfl]
    rw [hbody0]
  refine ⟨heq, hcount, ?_⟩
  unfold parsesAsSingleExpr
  rw [heq]
  have hdata : ("(" ++ (s.name ++ sfTokRun s.args) ++ ")").toList
      = '(' :: ((s.name.data ++ (sfTokRun s.args).data) ++ [')']) := by
    simp [String.data_append]
  rw [hdata]
  simp only [scanList]
  rw [show scanChar ScanMode.start '(' = (⟨1, false, false, true⟩, 1) by
    simp [ScanMode.start, scanChar]]
  rw [scanList_append, scanList_append]
  have hn1 : scanList ⟨1, false, false, true⟩ s.name.data
      = (⟨1, false, false, true⟩, 0) := by
    rw [scanUnit_plain s.name hname 1 true]
    simp
  rw [hn1]
  rw [scan_run_pos s.args hclean 0 true]
  simp only [scanList]
  rw [show scanChar ⟨1, false, false, true⟩ ')' = (⟨0, false, false, true⟩, 0) by
    simp [scanChar]]
  simp

theorem C5_token_count_amended_witness :
    (script_fu_script_get_command testBlurScript
      = "(" ++ (testBlurScript.name ++ sfTokRun testBlurScript.args) ++ ")") ∧
    topTokenCount (testBlurScript.name ++ sfTokRun testBlurScript.args)
      = 1 + testBlurScript.args.length ∧
    parsesAsSingleExpr (script_fu_script_get_command testBlurScript) :=
  C5_token_count_amended testBlurScript (by decide) (by decide)
